import Mathlib

/-!
Verification development for the `sourcebit-source-filesystem` models-matcher:
a shallow embedding of `matchObjectsToModels`, `addMetadata`, `mapObjectField`,
`urlPathFromFilePath` and `mergeDataObjects`, together with proofs about the
model-matching, metadata-annotation, URL-derivation and data-merging behaviour.
-/

namespace SourceFilesystem

/-- JSON-like values: the parsed content of one source file.  JavaScript plain
objects are modelled as insertion-ordered association lists (JS objects keep
string keys in insertion order and cannot hold duplicate keys). -/
inductive Value where
  | null : Value
  | bool : Bool → Value
  | num : Int → Value
  | str : String → Value
  | arr : List Value → Value
  | obj : List (String × Value) → Value

/-- A model or field declaration from `stackbit.yaml`.  The annotator treats
top-level models and field declarations uniformly, so one type covers both:
constructor arguments are `name`, `type`, `label`, `layout`, `fields`,
`models` (allowed model names of a polymorphic `model` field) and `items`
(item declaration of a `list` field). -/
inductive Model where
  | mk : Option String → String → Option String → Option String →
         List Model → Option (List String) → Option Model → Model

def Model.name : Model → Option String
  | .mk n _ _ _ _ _ _ => n

def Model.type : Model → String
  | .mk _ t _ _ _ _ _ => t

def Model.label : Model → Option String
  | .mk _ _ l _ _ _ _ => l

def Model.layout : Model → Option String
  | .mk _ _ _ ly _ _ _ => ly

def Model.fields : Model → List Model
  | .mk _ _ _ _ fs _ _ => fs

def Model.models : Model → Option (List String)
  | .mk _ _ _ _ _ ms _ => ms

def Model.items : Model → Option Model
  | .mk _ _ _ _ _ _ it => it

/-- First value stored under a key (JS property read on a plain object). -/
def lookupEntry {α : Type} : List (String × α) → String → Option α
  | [], _ => none
  | (k, v) :: rest, key => if k = key then some v else lookupEntry rest key

/-- JS property write: replace the value in place if the key exists
(keeping its position), otherwise append the new key at the end. -/
def assignEntry {α : Type} : List (String × α) → String → α → List (String × α)
  | [], key, x => [(key, x)]
  | (k, v) :: rest, key, x =>
    if k = key then (k, x) :: rest else (k, v) :: assignEntry rest key x

/-- `_.assign(a, ...b)`: fold the source's entries over the target. -/
def jsAssign {α : Type} (a b : List (String × α)) : List (String × α) :=
  b.foldl (fun acc p => assignEntry acc p.1 p.2) a

def indexEntries : List Value → Nat → List (String × Value)
  | [], _ => []
  | v :: rest, i => (toString i, v) :: indexEntries rest (i + 1)

/-- Own enumerable properties of a value, as `_.assign` enumerates a source:
objects contribute their entries, arrays and strings their indexed elements,
and primitives nothing. -/
def ownEntries : Value → List (String × Value)
  | .obj es => es
  | .arr xs => indexEntries xs 0
  | .str s => indexEntries (s.toList.map (fun c => Value.str (String.mk [c]))) 0
  | _ => []

/-- `_.isPlainObject`. -/
def isPlainObject : Value → Bool
  | .obj _ => true
  | _ => false

def parseIndexAux : List Char → Nat → Option Nat
  | [], acc => some acc
  | c :: rest, acc =>
    if c.isDigit then parseIndexAux rest (acc * 10 + (c.toNat - 48)) else none

/-- A path segment read as an array index: digits only (how lodash treats
index-like keys when walking into an array). -/
def parseIndex (s : String) : Option Nat :=
  match s.toList with
  | [] => none
  | cs => parseIndexAux cs 0

/-- `_.get(value, path)` for an already-split key path.  Arrays are indexed by
numeric path segments; any other mismatch yields `none` (JS `undefined`). -/
def getPath : Value → List String → Option Value
  | v, [] => some v
  | .obj es, k :: rest =>
    match lookupEntry es k with
    | some w => getPath w rest
    | none => none
  | .arr xs, k :: rest =>
    match parseIndex k with
    | some i =>
      match xs[i]? with
      | some w => getPath w rest
      | none => none
    | none => none
  | _, _ :: _ => none

/-- Join strings with a separator (`Array.prototype.join`). -/
def joinWith (sep : String) : List String → String
  | [] => ""
  | [x] => x
  | x :: rest => x ++ sep ++ joinWith sep rest

mutual
/-- JS string coercion of a value, as used when a value becomes a property
key or is rendered into a template string.  Array elements render
recursively, `null` rendering as the empty string inside an array. -/
def jsStringOfValue : Value → String
  | .null => "null"
  | .bool b => if b then "true" else "false"
  | .num n => toString n
  | .str s => s
  | .arr xs => joinWith "," (jsArrayElems xs)
  | .obj _ => "[object Object]"

def jsArrayElems : List Value → List String
  | [] => []
  | .null :: rest => "" :: jsArrayElems rest
  | v :: rest => jsStringOfValue v :: jsArrayElems rest
end

/-- JS coercion of a possibly-absent value to a property key:
`undefined` coerces to the string `"undefined"`. -/
def jsKeyOf : Option Value → String
  | none => "undefined"
  | some v => jsStringOfValue v

/-- The value found at a key path, coerced to a string the way the source
renders it into template strings and passes it to `path` functions.  A
non-string value here would make Node's `path.parse` throw; per the input
contract (§6) every content object carries normalized string paths, so the
coercion only ever applies to strings in well-formed inputs. -/
def filePathStringOf (object : Value) (fileKeyPath : List String) : String :=
  jsKeyOf (getPath object fileKeyPath)

def splitOnSlashAux : List Char → List Char → List String
  | [], acc => [String.mk acc.reverse]
  | c :: rest, acc =>
    if c = '/' then String.mk acc.reverse :: splitOnSlashAux rest []
    else splitOnSlashAux rest (c :: acc)

/-- `filePath.split(path.sep)` with the POSIX separator. -/
def splitOnSlash (s : String) : List String :=
  splitOnSlashAux s.toList []

/-- `path.parse`: the `dir` part (before the last separator) and the `base`
part (after it). -/
def pathDirBase (s : String) : String × String :=
  let parts := splitOnSlash s
  (joinWith "/" parts.dropLast, (parts.getLast?).getD "")

def lastDotIndexAux : List Char → Nat → Option Nat → Option Nat
  | [], _, acc => acc
  | c :: rest, i, acc =>
    lastDotIndexAux rest (i + 1) (if c = '.' then some i else acc)

/-- `path.parse(..).name`: the basename with its extension stripped.  The
extension starts at the last dot, unless that dot is the leading character
of the basename (hidden files) or the basename is exactly `..`. -/
def baseNameNoExt (base : String) : String :=
  if base = ".." then base
  else
    match lastDotIndexAux base.toList 0 none with
    | some i => if 0 < i then String.mk (base.toList.take i) else base
    | none => base

def asciiLower (s : String) : String :=
  String.mk (s.toList.map Char.toLower)

/-- `urlPathFromFilePath`: split the file path into directory segments and the
extension-stripped basename, drop the basename when it is `index`, join with
`/`, lower-case (ASCII, modelling `toLowerCase` on path characters) and
prefix a leading `/`. -/
def urlPathFromFilePath (filePath : String) : String :=
  let db := pathDirBase filePath
  let name := baseNameNoExt db.2
  let parts := (splitOnSlash db.1).filter (fun p => p ≠ "")
  let parts := if name ≠ "index" then parts ++ [name] else parts
  "/" ++ asciiLower (joinWith "/" parts)

/-- Key path of a data object inside the merged data object:
`_.compact(pathObject.dir.split(path.sep).concat(pathObject.name))` — unlike
URL derivation, an `index` basename is kept as a literal segment. -/
def propPathFromFilePath (filePath : String) : List String :=
  let db := pathDirBase filePath
  let name := baseNameNoExt db.2
  ((splitOnSlash db.1) ++ [name]).filter (fun p => p ≠ "")

/-- Sort key of `_.sortBy(objects, objectFileKeyPath)`: the string stored at
the file-path key.  A missing (or non-string) key sorts after every string,
as lodash sorts `undefined` last in ascending order. -/
def sortKeyOf (o : Value) (fileKeyPath : List String) : Option String :=
  match getPath o fileKeyPath with
  | some (.str s) => some s
  | _ => none

def keyLe : Option String → Option String → Bool
  | none, none => true
  | none, some _ => false
  | some _, none => true
  | some a, some b => !(decide (b < a))

def orderedInsertBy (key : Value → Option String) (a : Value) : List Value → List Value
  | [] => [a]
  | x :: xs =>
    if keyLe (key a) (key x) then a :: x :: xs else x :: orderedInsertBy key a xs

/-- `_.sortBy`: a stable ascending sort by the extracted key. -/
def sortByKey (key : Value → Option String) : List Value → List Value
  | [] => []
  | a :: l => orderedInsertBy key a (sortByKey key l)

/-- `_.set(accum, propPath, x)`: walk the key path, descending into existing
mappings and replacing non-mapping intermediates with fresh ones, then store
`x` at the final key.  (Lodash also descends into JS arrays, attaching extra
string properties to them; arrays carrying string properties are not
representable here, so such intermediates are rebuilt as fresh mappings.) -/
def jsSet : Value → List String → Value → Value
  | v, [], _ => v
  | .obj es, [k], x => .obj (assignEntry es k x)
  | .obj es, k :: k' :: rest, x =>
    let child :=
      match lookupEntry es k with
      | some (.obj ces) => Value.obj ces
      | _ => Value.obj []
    .obj (assignEntry es k (jsSet child (k' :: rest) x))
  | v, _ :: _, _ => v

/-- `mergeDataObjects`: sort the data objects by their file-path key, then
fold them into the seeded accumulator, placing each object at its derived
property path. -/
def mergeDataObjects (objects : List Value) (objectFileKeyPath : List String)
    (source : String) : Value :=
  let sorted := sortByKey (fun o => sortKeyOf o objectFileKeyPath) objects
  sorted.foldl
    (fun accum object =>
      jsSet accum (propPathFromFilePath (filePathStringOf object objectFileKeyPath)) object)
    (Value.obj [("__metadata",
      Value.obj [("id", Value.str (source ++ ":data")), ("source", Value.str source)])])

/-- Diagnostic taxonomy of §7: `MatchError` (no/ambiguous model),
`ShapeError` (value shape violates composite/sequence expectation),
`SchemaError` (invalid or unresolved model reference). -/
inductive ErrKind where
  | matchError : ErrKind
  | shapeError : ErrKind
  | schemaError : ErrKind
deriving DecidableEq

/-- One logged diagnostic: its taxonomy kind and the message text the source
writes to the error log. -/
structure Diag where
  kind : ErrKind
  message : String
deriving DecidableEq

/-- The location suffix every annotator diagnostic carries:
`file: <filePath>:<dataPath>, model: stackbit.yaml:models.<modelPath>`. -/
def location (filePath : String) (dataFieldPath modelFieldPath : List String) : String :=
  "file: " ++ filePath ++ ":" ++ joinWith "." dataFieldPath ++
    ", model: stackbit.yaml:models." ++ joinWith "." modelFieldPath

def msgNotObject : String := "value must be an object, "
def msgModelsArray : String :=
  "field of type \x27model\x27 must have \x27models\x27 property with array having at least one model name, "
def msgModelsExisting : String :=
  "the \x27models\x27 array of the field of type \x27model\x27 must include the names of existing models, "
def msgTypeRequired : String :=
  "object referenced by a field of type \x27model\x27 having more than one model in \x27models\x27 array, must have \x27type\x27 property specifying the name of the object\x27s model, "
def msgTypeExisting : String :=
  "the value of the \x27type\x27 property of the object referenced by a field of type \x27model\x27 must be the name of an existing model, "
def msgListArray : String :=
  "the value referenced by a field of type \x27list\x27 must be an array, "

/-- `_.has(fieldValue, 'type')` followed by reading `fieldValue.type`:
only plain objects carry a `type` property here. -/
def typeKeyOf : Value → Option Value
  | .obj es => lookupEntry es "type"
  | _ => none

/-- The item declaration a `list` field falls back to when it has no
`items`: a scalar `string` field. -/
def defaultItemModel : Model := Model.mk none "string" none none [] none none

/-- The `__metadata` keys computed for a resolved model, with `nil`-valued
entries omitted (`_.omitBy(..., _.isNil)`): `modelType` from the model's
type, `modelName`/`modelLabel` when present, and `urlPath` only for `page`
models. -/
def computedMeta (model : Model) (filePath : String) : List (String × Value) :=
  [("modelType", Value.str model.type)]
    ++ (match model.name with
        | some n => [("modelName", Value.str n)]
        | none => [])
    ++ (match model.label with
        | some l => [("modelLabel", Value.str l)]
        | none => [])
    ++ (if model.type = "page" then [("urlPath", Value.str (urlPathFromFilePath filePath))]
        else [])

mutual

/-- `addMetadata(data, model, ...)`: reject non-objects with a `ShapeError`,
map every declared field's value through `mapObjectField`, then merge the
computed `__metadata` keys over any existing `__metadata` entries. -/
def addMetadata (data : Value) (model : Model) (filePath : String)
    (modelsByName : List (String × Model))
    (dataFieldPath modelFieldPath : List String) : Value × List Diag :=
  let mfp := if modelFieldPath.isEmpty then [model.name.getD "undefined"] else modelFieldPath
  match data with
  | .obj es =>
    let r := mapEntries es model.fields filePath modelsByName dataFieldPath mfp
    let oldMeta := ownEntries ((lookupEntry r.1 "__metadata").getD (Value.obj []))
    let meta := jsAssign oldMeta (computedMeta model filePath)
    (Value.obj (assignEntry r.1 "__metadata" (Value.obj meta)), r.2)
  | _ =>
    (data, [⟨ErrKind.shapeError, msgNotObject ++ location filePath dataFieldPath mfp⟩])

/-- The `_.mapValues` body of `addMetadata`: each entry whose key names a
declared field is dispatched through `mapObjectField`; undeclared entries
pass through unchanged. -/
def mapEntries (es : List (String × Value)) (fields : List Model)
    (filePath : String) (modelsByName : List (String × Model))
    (dataFieldPath modelFieldPath : List String) : List (String × Value) × List Diag :=
  match es with
  | [] => ([], [])
  | (k, v) :: rest =>
    let hd :=
      match fields.find? (fun f => f.name = some k) with
      | none => (v, ([] : List Diag))
      | some fieldModel =>
        mapObjectField v fieldModel filePath modelsByName
          (dataFieldPath ++ [k]) (modelFieldPath ++ ["fields", k])
    let tl := mapEntries rest fields filePath modelsByName dataFieldPath modelFieldPath
    ((k, hd.1) :: tl.1, hd.2 ++ tl.2)

/-- `mapObjectField(fieldValue, fieldModel, ...)`: the field-type dispatch
over `object`, `model`, `reference`, `list` and scalars. -/
def mapObjectField (fieldValue : Value) (fieldModel : Model) (filePath : String)
    (modelsByName : List (String × Model))
    (dataFieldPath modelFieldPath : List String) : Value × List Diag :=
  let loc := location filePath dataFieldPath modelFieldPath
  if fieldModel.type = "object" then
    addMetadata fieldValue fieldModel filePath modelsByName dataFieldPath modelFieldPath
  else if fieldModel.type = "model" then
    match fieldModel.models with
    | none => (fieldValue, [⟨ErrKind.schemaError, msgModelsArray ++ loc⟩])
    | some [] => (fieldValue, [⟨ErrKind.schemaError, msgModelsArray ++ loc⟩])
    | some [modelName] =>
      match lookupEntry modelsByName modelName with
      | none => (fieldValue, [⟨ErrKind.schemaError, msgModelsExisting ++ loc⟩])
      | some m => addMetadata fieldValue m filePath modelsByName dataFieldPath []
    | some (_ :: _ :: _) =>
      match typeKeyOf fieldValue with
      | none => (fieldValue, [⟨ErrKind.schemaError, msgTypeRequired ++ loc⟩])
      | some (.str n) =>
        match lookupEntry modelsByName n with
        | none => (fieldValue, [⟨ErrKind.schemaError, msgTypeExisting ++ loc⟩])
        | some m => addMetadata fieldValue m filePath modelsByName dataFieldPath []
      | some _ => (fieldValue, [⟨ErrKind.schemaError, msgTypeExisting ++ loc⟩])
  else if fieldModel.type = "reference" then
    match typeKeyOf fieldValue with
    | some (.str n) =>
      match lookupEntry modelsByName n with
      | some m => addMetadata fieldValue m filePath modelsByName dataFieldPath []
      | none => (fieldValue, [])
    | _ => (fieldValue, [])
  else if fieldModel.type = "list" then
    match fieldValue with
    | .arr xs =>
      let itemModel := fieldModel.items.getD defaultItemModel
      let r := mapItems xs itemModel filePath modelsByName dataFieldPath
        (modelFieldPath ++ ["items"]) 0
      (Value.arr r.1, r.2)
    | _ => (fieldValue, [⟨ErrKind.shapeError, msgListArray ++ loc⟩])
  else
    (fieldValue, [])

/-- The `_.map` over a `list` field's elements, threading the numeric index
into the data path. -/
def mapItems (xs : List Value) (itemModel : Model) (filePath : String)
    (modelsByName : List (String × Model))
    (dataFieldPath modelFieldPath : List String) (idx : Nat) : List Value × List Diag :=
  match xs with
  | [] => ([], [])
  | x :: rest =>
    let hd := mapObjectField x itemModel filePath modelsByName
      (dataFieldPath ++ [toString idx]) modelFieldPath
    let tl := mapItems rest itemModel filePath modelsByName dataFieldPath modelFieldPath (idx + 1)
    (hd.1 :: tl.1, hd.2 ++ tl.2)

end

/-- Caller-supplied configuration of `matchObjectsToModels` (§6): the
page/data predicates, the key paths for reading an object's declared
layout/type, id and file path, the source id, and the two boolean flags. -/
structure MatchOptions where
  pageObjectsPredicate : Value → Bool
  dataObjectsPredicate : Value → Bool
  pageLayoutKey : List String
  dataTypeKey : List String
  objectIdKeyPath : List String
  objectFileKeyPath : List String
  source : String
  mergeDataModels : Bool
  logMatchedModels : Bool

/-- Modelled from the spec: the attribute of a candidate model that
`getModelByQuery` compares the declared type against — the model's `layout`
attribute for page matching, its `name` for data matching (§4.2). -/
def modelQueryAttr (modelTypeKeyPath : String) (m : Model) : Option String :=
  if modelTypeKeyPath = "name" then m.name
  else if modelTypeKeyPath = "layout" then m.layout
  else none

/-- Modelled from the spec: `getModelByQuery` lives in the external
`@stackbit/sdk` package, not in this repository's sources.  Following §4.2:
if the declared type is present, the unique candidate whose
`modelTypeKeyPath` attribute equals it wins, and zero or several matches are
a `MatchError`; if the declared type is absent, a unique candidate wins.
The file path enters only the diagnostic message. -/
def getModelByQuery (filePath : Option Value) (declaredType : Option Value)
    (modelTypeKeyPath : String) (models : List Model) : Except String Model :=
  let fileStr := jsKeyOf filePath
  match declaredType with
  | some (.str t) =>
    match models.filter (fun m => modelQueryAttr modelTypeKeyPath m = some t) with
    | [m] => Except.ok m
    | [] => Except.error ("could not match file " ++ fileStr ++ " to a model")
    | _ => Except.error ("file " ++ fileStr ++ " matched multiple models")
  | none =>
    match models with
    | [m] => Except.ok m
    | _ => Except.error ("could not match file " ++ fileStr ++ " to a model")
  | some _ => Except.error ("could not match file " ++ fileStr ++ " to a model")

/-- The per-object body of the matching reduce: classify the object with the
page/data predicates and query the corresponding model partition; objects
matching neither predicate are skipped. -/
def resolveObject (object : Value) (pageModels dataModels : List Model)
    (opts : MatchOptions) : Option (Except String Model) :=
  if opts.pageObjectsPredicate object then
    some (getModelByQuery (getPath object opts.objectFileKeyPath)
      (getPath object opts.pageLayoutKey) "layout" pageModels)
  else if opts.dataObjectsPredicate object then
    some (getModelByQuery (getPath object opts.objectFileKeyPath)
      (getPath object opts.dataTypeKey) "name" dataModels)
  else none

/-- The id under which an object's resolved model is stored: the value at
`objectIdKeyPath`, coerced to a property key as JS does. -/
def idKeyOf (object : Value) (opts : MatchOptions) : String :=
  jsKeyOf (getPath object opts.objectIdKeyPath)

/-- The `modelsByObjectIds` reduce: a map from object id to resolved model,
plus the `MatchError` diagnostics logged for objects whose query failed. -/
def modelsByObjectIds (objects : List Value) (pageModels dataModels : List Model)
    (opts : MatchOptions) : List (String × Model) × List Diag :=
  objects.foldl
    (fun acc object =>
      match resolveObject object pageModels dataModels opts with
      | none => acc
      | some (Except.error msg) => (acc.1, acc.2 ++ [⟨ErrKind.matchError, msg⟩])
      | some (Except.ok model) => (assignEntry acc.1 (idKeyOf object opts) model, acc.2))
    ([], [])

/-- `_.keyBy(models, 'name')`: later models overwrite earlier ones sharing a
name; a missing name coerces to the key `"undefined"`. -/
def keyBy (models : List Model) : List (String × Model) :=
  models.foldl (fun acc m => assignEntry acc (m.name.getD "undefined") m) []

/-- The annotation step applied to one object: look its model up by id and
either pass the object through unmodified or annotate it. -/
def annotateObject (object : Value) (byId modelsByName : List (String × Model))
    (opts : MatchOptions) : Value × List Diag :=
  match lookupEntry byId (idKeyOf object opts) with
  | none => (object, [])
  | some model =>
    addMetadata object model (filePathStringOf object opts.objectFileKeyPath)
      modelsByName [] []

/-- `_.matches({__metadata: {modelType: 'data'}})`. -/
def isDataTagged (o : Value) : Bool :=
  match getPath o ["__metadata", "modelType"] with
  | some (.str s) => s = "data"
  | _ => false

/-- `matchObjectsToModels(objects, models, options)`: build the schema index
and the id→model map, annotate every matched object, and optionally append
the merged data object. -/
def matchObjectsToModels (objects : List Value) (models : List Model)
    (opts : MatchOptions) : List Value × List Diag :=
  let modelsByName := keyBy models
  let pageModels := models.filter (fun m => m.type = "page")
  let dataModels := models.filter (fun m => m.type = "data")
  let matched := modelsByObjectIds objects pageModels dataModels opts
  let mapped := objects.map (fun object => annotateObject object matched.1 modelsByName opts)
  let annotated := mapped.map Prod.fst
  let diags := matched.2 ++ (mapped.map Prod.snd).flatten
  let final :=
    if opts.mergeDataModels then
      annotated ++ [mergeDataObjects (annotated.filter isDataTagged) opts.objectFileKeyPath opts.source]
    else annotated
  (final, diags)

/-! ### The throwing paths of the source

`matchObjectsToModels` is not total in the source.  Node's `path.parse`
accepts only strings and throws a `TypeError` on any other argument; the
source applies it to the raw value read from `objectFileKeyPath` in two
places: `urlPathFromFilePath` while computing a `page` model's `urlPath`
(line 110), and `mergeDataObjects` while deriving each data object's key
path (line 182).  Separately, the `logMatchedModels` branch (lines 54-58)
evaluates `longestModelName.length`, which throws when `_.maxBy` selected
a nameless model.  The definitions below model those paths;
`matchObjectsToModelsE` raises exactly where the source raises and
otherwise returns the total result above. -/

/-- `typeof x === 'string'`: the only values Node's `path.parse` accepts
without throwing a `TypeError`. -/
def isStringValue : Option Value → Bool
  | some (.str _) => true
  | _ => false

/-- The `TypeError` raised by Node's `path.parse` on a non-string
argument. -/
def msgPathTypeError : String :=
  "TypeError: the path argument must be of type string"

/-- The `TypeError` raised by `longestModelName.length` when `_.maxBy`
returned `undefined`. -/
def msgLengthOfUndefined : String :=
  "TypeError: Cannot read properties of undefined (reading \x27length\x27)"

mutual

/-- Does the `addMetadata` traversal apply a model of type `page`?  For
such a model line 110 evaluates `urlPathFromFilePath(filePath)`, whose
`path.parse` throws on a non-string file path; the traversal mirrors
`addMetadata`: non-objects return before the metadata step, every declared
field dispatches through `mapObjectField` first, then the current model's
`urlPath` is computed. -/
def pageModelReached (data : Value) (model : Model)
    (modelsByName : List (String × Model)) : Bool :=
  match data with
  | .obj es =>
    entriesReachPage es model.fields modelsByName || (model.type = "page")
  | _ => false

/-- The `_.mapValues` body of the traversal: only entries naming a declared
field recurse. -/
def entriesReachPage (es : List (String × Value)) (fields : List Model)
    (modelsByName : List (String × Model)) : Bool :=
  match es with
  | [] => false
  | (k, v) :: rest =>
    (match fields.find? (fun f => f.name = some k) with
      | none => false
      | some fieldModel => fieldReachesPage v fieldModel modelsByName) ||
      entriesReachPage rest fields modelsByName

/-- The `mapObjectField` dispatch of the traversal: recursion happens only
on the branches where the source recurses; every error branch returns the
value before any model is applied. -/
def fieldReachesPage (fieldValue : Value) (fieldModel : Model)
    (modelsByName : List (String × Model)) : Bool :=
  if fieldModel.type = "object" then
    pageModelReached fieldValue fieldModel modelsByName
  else if fieldModel.type = "model" then
    match fieldModel.models with
    | some [modelName] =>
      match lookupEntry modelsByName modelName with
      | some m => pageModelReached fieldValue m modelsByName
      | none => false
    | some (_ :: _ :: _) =>
      match typeKeyOf fieldValue with
      | some (.str n) =>
        match lookupEntry modelsByName n with
        | some m => pageModelReached fieldValue m modelsByName
        | none => false
      | _ => false
    | _ => false
  else if fieldModel.type = "reference" then
    match typeKeyOf fieldValue with
    | some (.str n) =>
      match lookupEntry modelsByName n with
      | some m => pageModelReached fieldValue m modelsByName
      | none => false
    | _ => false
  else if fieldModel.type = "list" then
    match fieldValue with
    | .arr xs =>
      itemsReachPage xs (fieldModel.items.getD defaultItemModel) modelsByName
    | _ => false
  else false

/-- The `_.map` over a list field's elements. -/
def itemsReachPage (xs : List Value) (itemModel : Model)
    (modelsByName : List (String × Model)) : Bool :=
  match xs with
  | [] => false
  | x :: rest =>
    fieldReachesPage x itemModel modelsByName ||
      itemsReachPage rest itemModel modelsByName

end

/-- Annotating one object reaches `path.parse` exactly when the raw value
at `objectFileKeyPath` is not a string and the traversal applies some
`page`-typed model: the file-path value is fixed for the entire traversal
of one object, so the conjunction factors out of the recursion. -/
def addMetadataThrows (data : Value) (model : Model) (fpv : Option Value)
    (modelsByName : List (String × Model)) : Bool :=
  !(isStringValue fpv) && pageModelReached data model modelsByName

/-- Does the annotation step of one object throw?  Objects whose id
resolves no model pass through without touching `path.parse`. -/
def annotateObjectThrows (object : Value) (byId modelsByName : List (String × Model))
    (opts : MatchOptions) : Bool :=
  match lookupEntry byId (idKeyOf object opts) with
  | none => false
  | some model =>
    addMetadataThrows object model (getPath object opts.objectFileKeyPath) modelsByName

/-- `_.size` of a value produced by `_.map(modelsByObjectIds, 'name')`:
`undefined` has size `0`. -/
def jsSizeOfName : Option String → Nat
  | none => 0
  | some s => s.length

/-- `_.uniq`: first occurrences in order, later duplicates dropped. -/
def jsUniq : List (Option String) → List (Option String)
  | [] => []
  | v :: rest => v :: jsUniq (rest.filter (fun w => w ≠ v))
termination_by l => l.length
decreasing_by
  simp only [List.length_cons]
  exact Nat.lt_succ_of_le (List.length_filter_le _ _)

/-- `_.maxBy(names, _.size)`: lodash keeps the current best and replaces it
only on a strictly greater size, so the first element of maximal size is
selected. -/
def maxBySizeAux (r : Option String) (c : Nat) : List (Option String) → Option String
  | [] => r
  | v :: rest =>
    if c < jsSizeOfName v then maxBySizeAux v (jsSizeOfName v) rest
    else maxBySizeAux r c rest

/-- `_.maxBy` proper: `none` on the empty list, else the selected element —
which is itself an `undefined` name when a nameless model wins. -/
def maxBySize : List (Option String) → Option (Option String)
  | [] => none
  | v :: rest => some (maxBySizeAux v (jsSizeOfName v) rest)

/-- The `logMatchedModels` branch (source lines 54–58) throws iff the match
map is non-empty — so the `_.map` body dereferencing
`longestModelName.length` runs — and `_.maxBy` selected a nameless model. -/
def logMatchedThrows (matched : List (String × Model)) : Bool :=
  match matched with
  | [] => false
  | _ :: _ =>
    match maxBySize (jsUniq (matched.map (fun p => p.2.name))) with
    | some none => true
    | _ => false

/-- The `mergeDataObjects` fold applies `path.parse` to every data object's
file-path value in turn; any non-string value throws. -/
def mergeDataObjectsThrows (objects : List Value) (objectFileKeyPath : List String) : Bool :=
  objects.any (fun o => !(isStringValue (getPath o objectFileKeyPath)))

/-- `matchObjectsToModels` with its genuine failure modes: the
`logMatchedModels` logging throw (before annotation, lines 54–58), the
per-object annotation throws (the `_.map` of line 60), the merge-phase
throws (line 182), in program order; when none fires the result is the
total model's. -/
def matchObjectsToModelsE (objects : List Value) (models : List Model)
    (opts : MatchOptions) : Except String (List Value × List Diag) :=
  let modelsByName := keyBy models
  let pageModels := models.filter (fun m => m.type = "page")
  let dataModels := models.filter (fun m => m.type = "data")
  let matched := modelsByObjectIds objects pageModels dataModels opts
  if opts.logMatchedModels && logMatchedThrows matched.1 then
    Except.error msgLengthOfUndefined
  else if objects.any (fun object =>
      annotateObjectThrows object matched.1 modelsByName opts) then
    Except.error msgPathTypeError
  else if opts.mergeDataModels && mergeDataObjectsThrows
      ((objects.map (fun object =>
        (annotateObject object matched.1 modelsByName opts).1)).filter isDataTagged)
      opts.objectFileKeyPath then
    Except.error msgPathTypeError
  else
    Except.ok (matchObjectsToModels objects models opts)

/-! ### Association-list lemmas -/

@[simp] theorem lookupEntry_nil {α : Type} (k : String) :
    lookupEntry ([] : List (String × α)) k = none := rfl

theorem lookupEntry_cons {α : Type} (p : String × α) (rest : List (String × α)) (k : String) :
    lookupEntry (p :: rest) k = if p.1 = k then some p.2 else lookupEntry rest k := by
  obtain ⟨a, b⟩ := p
  rfl

@[simp] theorem lookupEntry_assignEntry_self {α : Type} (es : List (String × α)) (k : String) (x : α) :
    lookupEntry (assignEntry es k x) k = some x := by
  induction es with
  | nil => simp [assignEntry, lookupEntry]
  | cons p rest ih =>
    obtain ⟨a, b⟩ := p
    by_cases h : a = k <;> simp [assignEntry, lookupEntry, h, ih]

theorem lookupEntry_assignEntry_ne {α : Type} (es : List (String × α)) (k k' : String) (x : α)
    (h : k' ≠ k) : lookupEntry (assignEntry es k x) k' = lookupEntry es k' := by
  have h2 : k ≠ k' := Ne.symm h
  induction es with
  | nil => simp [assignEntry, lookupEntry, h2]
  | cons p rest ih =>
    obtain ⟨a, b⟩ := p
    by_cases ha : a = k
    · subst ha
      simp [assignEntry, lookupEntry, h2]
    · simp [assignEntry, lookupEntry, ha, ih]

theorem assignEntry_of_lookup_eq {α : Type} (es : List (String × α)) (k : String) (x : α)
    (h : lookupEntry es k = some x) : assignEntry es k x = es := by
  induction es with
  | nil => simp [lookupEntry] at h
  | cons p rest ih =>
    obtain ⟨a, b⟩ := p
    by_cases ha : a = k
    · subst ha
      simp [lookupEntry] at h
      simp [assignEntry, h]
    · simp [lookupEntry, ha] at h
      simp [assignEntry, ha, ih h]

theorem assignEntry_assignEntry {α : Type} (es : List (String × α)) (k : String) (x y : α) :
    assignEntry (assignEntry es k x) k y = assignEntry es k y := by
  induction es with
  | nil => simp [assignEntry]
  | cons p rest ih =>
    obtain ⟨a, b⟩ := p
    by_cases ha : a = k <;> simp [assignEntry, ha, ih]

theorem mem_assignEntry {α : Type} (es : List (String × α)) (k : String) (x : α)
    (p : String × α) (h : p ∈ assignEntry es k x) : p ∈ es ∨ p = (k, x) := by
  induction es with
  | nil => simpa [assignEntry] using h
  | cons q rest ih =>
    obtain ⟨a, b⟩ := q
    by_cases ha : a = k
    · subst ha
      simp [assignEntry] at h
      rcases h with h | h
      · right
        simp [h]
      · left
        simp [h]
    · simp [assignEntry, ha] at h
      rcases h with h | h
      · left
        simp [h]
      · rcases ih h with hh | hh
        · left
          simp [hh]
        · right
          exact hh

theorem lookupEntry_mem {α : Type} (es : List (String × α)) (k : String) (x : α)
    (h : lookupEntry es k = some x) : (k, x) ∈ es := by
  induction es with
  | nil => simp [lookupEntry] at h
  | cons p rest ih =>
    obtain ⟨a, b⟩ := p
    by_cases ha : a = k
    · subst ha
      simp [lookupEntry] at h
      simp [h]
    · simp [lookupEntry, ha] at h
      simp [ih h]

@[simp] theorem jsAssign_nil {α : Type} (a : List (String × α)) : jsAssign a [] = a := rfl

theorem jsAssign_cons {α : Type} (a : List (String × α)) (p : String × α) (b : List (String × α)) :
    jsAssign a (p :: b) = jsAssign (assignEntry a p.1 p.2) b := rfl

/-- Looking a key up after `_.assign` over sources with pairwise-distinct
keys: the source wins where it has the key, the target answers otherwise. -/
theorem lookupEntry_jsAssign {α : Type} (a b : List (String × α)) (k : String)
    (hnd : (b.map Prod.fst).Nodup) :
    lookupEntry (jsAssign a b) k =
      match lookupEntry b k with
      | some v => some v
      | none => lookupEntry a k := by
  induction b generalizing a with
  | nil => simp [jsAssign]
  | cons p bs ih =>
    obtain ⟨k0, v0⟩ := p
    simp only [List.map_cons, List.nodup_cons] at hnd
    rw [jsAssign_cons, ih _ hnd.2]
    by_cases hk : k0 = k
    · subst hk
      have hnone : lookupEntry bs k0 = none := by
        rcases hh : lookupEntry bs k0 with _ | w
        · rfl
        · exact absurd (List.mem_map_of_mem Prod.fst (lookupEntry_mem bs k0 w hh)) hnd.1
      rw [hnone]
      simp [lookupEntry_cons]
    · rw [lookupEntry_cons]
      simp only [hk, if_false]
      rcases hh : lookupEntry bs k with _ | w
      · simp [lookupEntry_assignEntry_ne _ _ _ _ (Ne.symm hk)]
      · simp

theorem jsAssign_eq_self {α : Type} (a b : List (String × α))
    (h : ∀ p ∈ b, lookupEntry a p.1 = some p.2) : jsAssign a b = a := by
  induction b with
  | nil => rfl
  | cons p bs ih =>
    rw [jsAssign_cons, assignEntry_of_lookup_eq _ _ _ (h p (by simp))]
    exact ih fun q hq => h q (by simp [hq])

theorem lookupEntry_of_mem_nodup {α : Type} (b : List (String × α))
    (hnd : (b.map Prod.fst).Nodup) (p : String × α) (hp : p ∈ b) :
    lookupEntry b p.1 = some p.2 := by
  induction b with
  | nil => simp at hp
  | cons q bs ih =>
    simp only [List.map_cons, List.nodup_cons] at hnd
    rcases List.mem_cons.1 hp with h | h
    · subst h
      simp [lookupEntry_cons]
    · have hne : q.1 ≠ p.1 := by
        intro he
        exact hnd.1 (he ▸ List.mem_map_of_mem Prod.fst h)
      rw [lookupEntry_cons]
      simp [hne, ih hnd.2 h]

/-- Re-assigning the same nodup-keyed source is a no-op. -/
theorem jsAssign_jsAssign_self {α : Type} (a b : List (String × α))
    (hnd : (b.map Prod.fst).Nodup) : jsAssign (jsAssign a b) b = jsAssign a b := by
  apply jsAssign_eq_self
  intro p hp
  rw [lookupEntry_jsAssign _ _ _ hnd]
  simp [lookupEntry_of_mem_nodup b hnd p hp]

/-! ### Annotator structural lemmas -/

/-- `_.isArray`. -/
def isArray : Value → Bool
  | .arr _ => true
  | _ => false

/-- What `mapEntries` does to one entry: dispatch through `mapObjectField`
when the key names a declared field, identity otherwise. -/
def entryMap (fields : List Model) (filePath : String) (modelsByName : List (String × Model))
    (dataFieldPath modelFieldPath : List String) (k : String) (v : Value) : Value :=
  match fields.find? (fun f => f.name = some k) with
  | none => v
  | some fieldModel =>
    (mapObjectField v fieldModel filePath modelsByName
      (dataFieldPath ++ [k]) (modelFieldPath ++ ["fields", k])).1

theorem mapEntries_fst (es : List (String × Value)) (fields : List Model)
    (fp : String) (mbn : List (String × Model)) (dp mp : List String) :
    (mapEntries es fields fp mbn dp mp).1 =
      es.map (fun p => (p.1, entryMap fields fp mbn dp mp p.1 p.2)) := by
  induction es with
  | nil => simp [mapEntries]
  | cons p rest ih =>
    obtain ⟨k, v⟩ := p
    rw [mapEntries]
    rcases hf : fields.find? (fun f => f.name = some k) with _ | f <;>
      simp [entryMap, hf, ih]

theorem lookupEntry_map_entries (es : List (String × Value)) (t : String → Value → Value)
    (k : String) :
    lookupEntry (es.map (fun p => (p.1, t p.1 p.2))) k = (lookupEntry es k).map (t k) := by
  induction es with
  | nil => simp
  | cons p rest ih =>
    obtain ⟨a, b⟩ := p
    by_cases ha : a = k
    · subst ha
      simp [lookupEntry_cons]
    · simp [lookupEntry_cons, ha, ih]

theorem mapItems_getElem (xs : List Value) (im : Model) (fp : String)
    (mbn : List (String × Model)) (dp mp : List String) (idx i : Nat) :
    (mapItems xs im fp mbn dp mp idx).1[i]? =
      (xs[i]?).map (fun x => (mapObjectField x im fp mbn (dp ++ [toString (idx + i)]) mp).1) := by
  induction xs generalizing idx i with
  | nil => simp [mapItems]
  | cons x rest ih =>
    rw [mapItems]
    rcases i with _ | j
    · simp
    · have := ih (idx + 1) j
      have harith : idx + 1 + j = idx + (j + 1) := by omega
      rw [harith] at this
      simpa using this

theorem mapItems_length (xs : List Value) (im : Model) (fp : String)
    (mbn : List (String × Model)) (dp mp : List String) (idx : Nat) :
    (mapItems xs im fp mbn dp mp idx).1.length = xs.length := by
  induction xs generalizing idx with
  | nil => simp [mapItems]
  | cons x rest ih => simp [mapItems, ih]

theorem addMetadata_not_obj (data : Value) (model : Model) (fp : String)
    (mbn : List (String × Model)) (dp mp : List String)
    (h : isPlainObject data = false) :
    addMetadata data model fp mbn dp mp =
      (data, [⟨ErrKind.shapeError,
        msgNotObject ++ location fp dp
          (if mp.isEmpty then [model.name.getD "undefined"] else mp)⟩]) := by
  cases data <;> simp_all [addMetadata, isPlainObject]

theorem addMetadata_obj (es : List (String × Value)) (model : Model) (fp : String)
    (mbn : List (String × Model)) (dp mp : List String) :
    addMetadata (Value.obj es) model fp mbn dp mp =
      (Value.obj (assignEntry
          (mapEntries es model.fields fp mbn dp
            (if mp.isEmpty then [model.name.getD "undefined"] else mp)).1
          "__metadata"
          (Value.obj (jsAssign
            (ownEntries ((lookupEntry
              (mapEntries es model.fields fp mbn dp
                (if mp.isEmpty then [model.name.getD "undefined"] else mp)).1
              "__metadata").getD (Value.obj [])))
            (computedMeta model fp)))),
        (mapEntries es model.fields fp mbn dp
          (if mp.isEmpty then [model.name.getD "undefined"] else mp)).2) := by
  rw [addMetadata]

theorem typeKeyOf_not_obj (v : Value) (h : isPlainObject v = false) :
    typeKeyOf v = none := by
  cases v <;> simp_all [typeKeyOf, isPlainObject]

theorem addMetadata_fst_not_obj (data : Value) (model : Model) (fp : String)
    (mbn : List (String × Model)) (dp mp : List String)
    (h : isPlainObject data = false) :
    (addMetadata data model fp mbn dp mp).1 = data := by
  rw [addMetadata_not_obj data model fp mbn dp mp h]

/-- Scalar (neither object nor array) field values pass through every branch
of the field-type dispatch with their value unchanged. -/
theorem mapObjectField_fst_scalar (v : Value) (f : Model) (fp : String)
    (mbn : List (String × Model)) (dp mp : List String)
    (h1 : isPlainObject v = false) (h2 : isArray v = false) :
    (mapObjectField v f fp mbn dp mp).1 = v := by
  rw [mapObjectField]
  by_cases ho : f.type = "object"
  · simp only [ho, if_true]
    exact addMetadata_fst_not_obj _ _ _ _ _ _ h1
  by_cases hm : f.type = "model"
  · simp only [ho, hm, if_false, if_true]
    rcases hms : f.models with _ | ms
    · simp
    rcases ms with _ | ⟨n0, ms⟩
    · simp
    rcases ms with _ | ⟨n1, ms⟩
    · rcases hl : lookupEntry mbn n0 with _ | m
      · simp [hl]
      · simp only [hl]
        exact addMetadata_fst_not_obj _ _ _ _ _ _ h1
    · rw [typeKeyOf_not_obj v h1]
      simp
  by_cases hr : f.type = "reference"
  · simp only [ho, hm, hr, if_false, if_true]
    rw [typeKeyOf_not_obj v h1]
    simp
  by_cases hli : f.type = "list"
  · simp only [ho, hm, hr, hli, if_false, if_true]
    cases v with
    | arr xs => simp [isArray] at h2
    | null => simp
    | bool b => simp
    | num n => simp
    | str s => simp
    | obj es => simp [isPlainObject] at h1
  · simp [ho, hm, hr, hli]
  intro xs hxx
  subst hxx
  simp [isArray] at h2

/-! ### `noMetaField`: no reachable field declaration named `__metadata` -/

def noMetaName (f : Model) : Bool := decide (f.name ≠ some "__metadata")

mutual
/-- No field declaration reachable from this model (through nested `fields`
and list `items`) is named `__metadata`. -/
def noMetaField : Model → Bool
  | .mk _ _ _ _ fields _ items =>
    noMetaFields fields &&
      (match items with
       | some it => noMetaField it
       | none => true)

def noMetaFields : List Model → Bool
  | [] => true
  | f :: rest => (noMetaName f && noMetaField f) && noMetaFields rest
end

theorem noMetaField_def (m : Model) :
    noMetaField m = (noMetaFields m.fields &&
      (match m.items with
       | some it => noMetaField it
       | none => true)) := by
  cases m
  rw [noMetaField.eq_def]
  rfl

theorem noMetaFields_mem (fs : List Model) (f : Model) (h : noMetaFields fs = true)
    (hf : f ∈ fs) : noMetaName f = true ∧ noMetaField f = true := by
  induction fs with
  | nil => simp at hf
  | cons g rest ih =>
    rw [noMetaFields.eq_def] at h
    simp only [Bool.and_eq_true] at h
    rcases List.mem_cons.1 hf with he | he
    · subst he
      exact ⟨h.1.1, h.1.2⟩
    · exact ih h.2 he

theorem noMetaField_fields (m : Model) (h : noMetaField m = true) :
    noMetaFields m.fields = true := by
  rw [noMetaField_def] at h
  simp only [Bool.and_eq_true] at h
  exact h.1

theorem defaultItemModel_noMeta : noMetaField defaultItemModel = true := by
  simp [defaultItemModel, noMetaField.eq_def, noMetaFields.eq_def]

theorem noMetaField_items (m : Model) (h : noMetaField m = true) :
    noMetaField (m.items.getD defaultItemModel) = true := by
  rw [noMetaField_def] at h
  simp only [Bool.and_eq_true] at h
  rcases hit : m.items with _ | it
  · simpa using defaultItemModel_noMeta
  · have h2 := h.2
    rw [hit] at h2
    simpa using h2

theorem find_meta_none (fs : List Model) (h : noMetaFields fs = true) :
    fs.find? (fun f => f.name = some "__metadata") = none := by
  rw [List.find?_eq_none]
  intro f hf
  have := (noMetaFields_mem fs f h hf).1
  simp only [noMetaName, decide_eq_true_eq] at this
  simpa using this

theorem computedMeta_keys_nodup (m : Model) (fp : String) :
    ((computedMeta m fp).map Prod.fst).Nodup := by
  rw [computedMeta]
  rcases hn : m.name with _ | n <;> rcases hl : m.label with _ | l <;>
      by_cases hp : m.type = "page" <;>
    simp [hn, hl, hp]

/-! ### `_.set` / `_.get` / sorting lemmas for the Orphan Merger -/

theorem jsSet_obj (es : List (String × Value)) (p : List String) (x : Value) :
    ∃ es2, jsSet (Value.obj es) p x = Value.obj es2 := by
  rcases p with _ | ⟨k, rest⟩
  · exact ⟨es, rfl⟩
  · rcases rest with _ | ⟨k2, rest2⟩
    · exact ⟨assignEntry es k x, rfl⟩
    · exact ⟨_, rfl⟩

theorem getPath_jsSet_self (p : List String) : ∀ (es : List (String × Value)) (x : Value),
    p ≠ [] → getPath (jsSet (Value.obj es) p x) p = some x := by
  induction p with
  | nil => intro es x h; simp at h
  | cons k rest ih =>
    intro es x _
    rcases rest with _ | ⟨k2, rest2⟩
    · simp [jsSet, getPath]
    · have hrest : k2 :: rest2 ≠ [] := by simp
      rw [jsSet]
      rcases hl : lookupEntry es k with _ | w
      · simp only [hl]
        simp [getPath, ih _ _ hrest]
      · cases w <;> simp only [hl] <;> simp [getPath, ih _ _ hrest]

theorem jsSet_preserves_other (es : List (String × Value)) (p : List String) (x : Value)
    (k : String) (hk : p.head? ≠ some k) :
    ∃ es2, jsSet (Value.obj es) p x = Value.obj es2 ∧
      lookupEntry es2 k = lookupEntry es k := by
  rcases p with _ | ⟨k0, rest⟩
  · exact ⟨es, rfl, rfl⟩
  · have hne : k ≠ k0 := by
      intro he
      exact hk (by simp [he])
    rcases rest with _ | ⟨k1, rest1⟩
    · exact ⟨assignEntry es k0 x, rfl, lookupEntry_assignEntry_ne _ _ _ _ hne⟩
    · exact ⟨_, rfl, lookupEntry_assignEntry_ne _ _ _ _ hne⟩

theorem mergeFold_meta (fkp : List String) (l : List Value) :
    ∀ es : List (String × Value),
      (∀ o ∈ l, (propPathFromFilePath (filePathStringOf o fkp)).head? ≠ some "__metadata") →
      ∃ es2,
        l.foldl (fun accum object =>
            jsSet accum (propPathFromFilePath (filePathStringOf object fkp)) object)
          (Value.obj es) = Value.obj es2 ∧
        lookupEntry es2 "__metadata" = lookupEntry es "__metadata" := by
  induction l with
  | nil => exact fun es _ => ⟨es, rfl, rfl⟩
  | cons o rest ih =>
    intro es h
    obtain ⟨es1, heq1, hlook1⟩ :=
      jsSet_preserves_other es (propPathFromFilePath (filePathStringOf o fkp)) o
        "__metadata" (h o (by simp))
    obtain ⟨es2, heq2, hlook2⟩ := ih es1 (fun q hq => h q (by simp [hq]))
    refine ⟨es2, ?_, hlook2.trans hlook1⟩
    rw [List.foldl_cons, heq1, heq2]

theorem mem_orderedInsertBy (key : Value → Option String) (a x : Value) :
    ∀ l : List Value, x ∈ orderedInsertBy key a l → x = a ∨ x ∈ l := by
  intro l
  induction l with
  | nil => simpa [orderedInsertBy] using fun h => Or.inl h
  | cons b bs ih =>
    rw [orderedInsertBy]
    by_cases hle : keyLe (key a) (key b)
    · simp only [hle, if_true]
      intro h
      rcases List.mem_cons.1 h with h | h
      · exact Or.inl h
      · exact Or.inr h
    · simp only [hle, if_false]
      intro h
      rcases List.mem_cons.1 h with h | h
      · exact Or.inr (by simp [h])
      · rcases ih h with h2 | h2
        · exact Or.inl h2
        · exact Or.inr (by simp [h2])

theorem mem_sortByKey (key : Value → Option String) :
    ∀ (l : List Value) (x : Value), x ∈ sortByKey key l → x ∈ l := by
  intro l
  induction l with
  | nil => intro x h; simpa [sortByKey] using h
  | cons a bs ih =>
    intro x h
    rw [sortByKey] at h
    rcases mem_orderedInsertBy key a x _ h with h2 | h2
    · simp [h2]
    · simp [ih x h2]

theorem sortByKey_pair (key : Value → Option String) (a b : Value) :
    sortByKey key [a, b] =
      if keyLe (key a) (key b) then [a, b] else [b, a] := by
  by_cases h : keyLe (key a) (key b) <;>
    simp [sortByKey, orderedInsertBy, h]

/-! ### Claim C5: the URL Path Deriver -/

/-- C5: `urlPathFromFilePath` splits the relative path into directory
segments and an extension-stripped basename, drops an `index` basename
(but only the basename — `index` directory segments survive), joins with
`/`, lower-cases, and prefixes `/`; in particular the three documented
examples hold, and every result carries the leading slash. -/
theorem c5_url_path_deriver :
    urlPathFromFilePath "blog/post-1/index.md" = "/blog/post-1" ∧
    urlPathFromFilePath "about.md" = "/about" ∧
    urlPathFromFilePath "index.md" = "/" ∧
    urlPathFromFilePath "index/about.md" = "/index/about" ∧
    urlPathFromFilePath "Team/Alice.md" = "/team/alice" ∧
    ∀ fp : String, ∃ rest, urlPathFromFilePath fp = "/" ++ rest := by
  refine ⟨rfl, rfl, rfl, rfl, rfl, fun fp => ⟨_, rfl⟩⟩

/-! ### Claim C4: merge ordering of the Orphan Merger -/

/-- C4: the Orphan Merger sorts data objects ascending by their file-path
key and folds them into the tree in that order, placing each at its derived
key path (`index` basenames kept as literal segments) with full overwrite;
so of two objects sharing a key path, the later-sorted one occupies the
path regardless of input order. -/
theorem c4_merge_ordering :
    (∀ (o1 o2 : Value) (fkp : List String) (src : String) (p : List String),
      propPathFromFilePath (filePathStringOf o1 fkp) = p →
      propPathFromFilePath (filePathStringOf o2 fkp) = p →
      p ≠ [] →
      keyLe (sortKeyOf o1 fkp) (sortKeyOf o2 fkp) = true →
      keyLe (sortKeyOf o2 fkp) (sortKeyOf o1 fkp) = false →
      getPath (mergeDataObjects [o1, o2] fkp src) p = some o2 ∧
      getPath (mergeDataObjects [o2, o1] fkp src) p = some o2) ∧
    propPathFromFilePath "team/index.md" = ["team", "index"] := by
  constructor
  · intro o1 o2 fkp src p h1 h2 hp hle hgt
    have hsorted1 : sortByKey (fun o => sortKeyOf o fkp) [o1, o2] = [o1, o2] := by
      rw [sortByKey_pair]
      simp [hle]
    have hsorted2 : sortByKey (fun o => sortKeyOf o fkp) [o2, o1] = [o1, o2] := by
      rw [sortByKey_pair]
      simp [hgt]
    have hfold : ∀ seed : List (String × Value),
        getPath ([o1, o2].foldl (fun accum object =>
          jsSet accum (propPathFromFilePath (filePathStringOf object fkp)) object)
          (Value.obj seed)) p = some o2 := by
      intro seed
      rw [List.foldl_cons, List.foldl_cons, List.foldl_nil, h1, h2]
      obtain ⟨es1, heq1⟩ := jsSet_obj seed p o1
      rw [heq1]
      exact getPath_jsSet_self p es1 o2 hp
    constructor
    · rw [mergeDataObjects]
      rw [hsorted1]
      exact hfold _
    · rw [mergeDataObjects]
      rw [hsorted2]
      exact hfold _
  · rfl

/-- Witness for C4 at the documented example: data objects at
`team/alice.md` and `team/alice.yaml` share the key path `team.alice`, the
`.md` path sorts strictly first, and in both input orders the later-sorted
(`.yaml`) object occupies the path. -/
theorem c4_merge_ordering_witness :
    getPath (mergeDataObjects
      [Value.obj [("__metadata", Value.obj [("relSourcePath", Value.str "team/alice.md")]),
         ("n", Value.num 1)],
       Value.obj [("__metadata", Value.obj [("relSourcePath", Value.str "team/alice.yaml")]),
         ("n", Value.num 2)]]
      ["__metadata", "relSourcePath"] "sourcebit-source-filesystem")
      ["team", "alice"] =
      some (Value.obj [("__metadata",
        Value.obj [("relSourcePath", Value.str "team/alice.yaml")]), ("n", Value.num 2)]) ∧
    getPath (mergeDataObjects
      [Value.obj [("__metadata", Value.obj [("relSourcePath", Value.str "team/alice.yaml")]),
         ("n", Value.num 2)],
       Value.obj [("__metadata", Value.obj [("relSourcePath", Value.str "team/alice.md")]),
         ("n", Value.num 1)]]
      ["__metadata", "relSourcePath"] "sourcebit-source-filesystem")
      ["team", "alice"] =
      some (Value.obj [("__metadata",
        Value.obj [("relSourcePath", Value.str "team/alice.yaml")]), ("n", Value.num 2)]) :=
  c4_merge_ordering.1
    (Value.obj [("__metadata", Value.obj [("relSourcePath", Value.str "team/alice.md")]),
      ("n", Value.num 1)])
    (Value.obj [("__metadata", Value.obj [("relSourcePath", Value.str "team/alice.yaml")]),
      ("n", Value.num 2)])
    ["__metadata", "relSourcePath"] "sourcebit-source-filesystem" ["team", "alice"]
    (by simp [filePathStringOf, jsKeyOf, jsStringOfValue, getPath, lookupEntry]
        decide)
    (by simp [filePathStringOf, jsKeyOf, jsStringOfValue, getPath, lookupEntry]
        decide)
    (by simp)
    (by simp [sortKeyOf, getPath, lookupEntry, keyLe]
        decide)
    (by simp [sortKeyOf, getPath, lookupEntry, keyLe]
        decide)

/-! ### Claim C9: the seeded `__metadata` of the Merged Data Object -/

/-- C9 (amended): the Merged Data Object carries the seeded `__metadata`
with `id = "<source>:data"` and the source — provided no data object's
derived key path starts with the segment `__metadata` (a data file named
`__metadata.*` overwrites the seed, see the counterexample). -/
theorem c9_merged_metadata_amended (objects : List Value) (fkp : List String) (source : String)
    (h : ∀ o ∈ objects,
      (propPathFromFilePath (filePathStringOf o fkp)).head? ≠ some "__metadata") :
    getPath (mergeDataObjects objects fkp source) ["__metadata"] =
      some (Value.obj [("id", Value.str (source ++ ":data")),
        ("source", Value.str source)]) := by
  rw [mergeDataObjects]
  obtain ⟨es2, heq, hlook⟩ :=
    mergeFold_meta fkp (sortByKey (fun o => sortKeyOf o fkp) objects)
      [("__metadata", Value.obj [("id", Value.str (source ++ ":data")),
        ("source", Value.str source)])]
      (fun o ho => h o (mem_sortByKey _ _ _ ho))
  rw [heq]
  rw [getPath]
  rw [hlook]
  simp [lookupEntry, getPath]

/-- Witness for C9 (amended) on a singleton data object at `team/alice.md`,
whose derived key path `team.alice` leaves the seed untouched. -/
theorem c9_merged_metadata_amended_witness :
    getPath (mergeDataObjects
      [Value.obj [("__metadata",
        Value.obj [("relSourcePath", Value.str "team/alice.md")])]]
      ["__metadata", "relSourcePath"] "sourcebit-source-filesystem")
      ["__metadata"] =
      some (Value.obj [("id", Value.str "sourcebit-source-filesystem:data"),
        ("source", Value.str "sourcebit-source-filesystem")]) :=
  c9_merged_metadata_amended
    [Value.obj [("__metadata", Value.obj [("relSourcePath", Value.str "team/alice.md")])]]
    ["__metadata", "relSourcePath"] "sourcebit-source-filesystem"
    (by
      intro o ho
      simp only [List.mem_singleton] at ho
      subst ho
      have hfp : filePathStringOf
          (Value.obj [("__metadata",
            Value.obj [("relSourcePath", Value.str "team/alice.md")])])
          ["__metadata", "relSourcePath"] = "team/alice.md" := by
        simp [filePathStringOf, jsKeyOf, jsStringOfValue, getPath, lookupEntry]
      rw [hfp]
      decide)

/-- Counterexample to C9 as stated: a data object whose file path is
`__metadata.md` derives the key path `["__metadata"]`, so the fold
overwrites the seeded `__metadata` wholesale and the merged object no
longer carries the seeded id. -/
theorem c9_counterexample :
    getPath (mergeDataObjects
      [Value.obj [("__metadata", Value.obj [("id", Value.str "data/x"),
        ("relSourcePath", Value.str "__metadata.md")])]]
      ["__metadata", "relSourcePath"] "sourcebit-source-filesystem")
      ["__metadata", "id"] = none := by
  have hfp : filePathStringOf
      (Value.obj [("__metadata", Value.obj [("id", Value.str "data/x"),
        ("relSourcePath", Value.str "__metadata.md")])])
      ["__metadata", "relSourcePath"] = "__metadata.md" := by
    simp [filePathStringOf, jsKeyOf, jsStringOfValue, getPath, lookupEntry]
  rw [mergeDataObjects]
  rw [show sortByKey (fun o => sortKeyOf o ["__metadata", "relSourcePath"])
      [Value.obj [("__metadata", Value.obj [("id", Value.str "data/x"),
        ("relSourcePath", Value.str "__metadata.md")])]] =
      [Value.obj [("__metadata", Value.obj [("id", Value.str "data/x"),
        ("relSourcePath", Value.str "__metadata.md")])]] from by
    rw [sortByKey, sortByKey, orderedInsertBy]]
  rw [List.foldl_cons, List.foldl_nil, hfp]
  rfl

/-! ### Transform output positions -/

/-- Which output slot each input object maps to: position `i` of the result
is the annotation (or pass-through) of input object `i`, looked up by id
in the match map. -/
theorem matchObjectsToModels_elem (objects : List Value) (models : List Model)
    (opts : MatchOptions) (i : Nat) (hi : i < objects.length) :
    (matchObjectsToModels objects models opts).1[i]? =
      some ((annotateObject objects[i]
        (modelsByObjectIds objects (models.filter (fun m => m.type = "page"))
          (models.filter (fun m => m.type = "data")) opts).1
        (keyBy models) opts).1) := by
  rw [matchObjectsToModels]
  have hmaplen : i <
      (objects.map (fun object => (annotateObject object
        (modelsByObjectIds objects (models.filter (fun m => m.type = "page"))
          (models.filter (fun m => m.type = "data")) opts).1
        (keyBy models) opts).1)).length := by
    simpa using hi
  by_cases h : opts.mergeDataModels <;>
    simp [h, List.getElem?_append, hmaplen, List.getElem?_map,
      List.getElem?_eq_getElem hi] <;>
    (intro hle; exact absurd hi (Nat.not_lt.2 hle))

theorem modelsByObjectIds_diag_mono (pm dm : List Model) (opts : MatchOptions)
    (d : Diag) :
    ∀ (l : List Value) (acc : List (String × Model) × List Diag), d ∈ acc.2 →
      d ∈ (l.foldl
        (fun acc object =>
          match resolveObject object pm dm opts with
          | none => acc
          | some (Except.error msg) => (acc.1, acc.2 ++ [⟨ErrKind.matchError, msg⟩])
          | some (Except.ok model) =>
            (assignEntry acc.1 (idKeyOf object opts) model, acc.2)) acc).2 := by
  intro l
  induction l with
  | nil => exact fun acc h => h
  | cons o rest ih =>
    intro acc h
    rw [List.foldl_cons]
    rcases hres : resolveObject o pm dm opts with _ | e
    · exact ih acc (by simpa [hres] using h)
    · rcases e with msg | m
      · exact ih _ (by simp [hres]; exact Or.inl h)
      · exact ih _ (by simpa [hres] using h)

theorem modelsByObjectIds_error_mem (objects : List Value) (pm dm : List Model)
    (opts : MatchOptions) (o : Value) (msg : String) (ho : o ∈ objects)
    (hres : resolveObject o pm dm opts = some (Except.error msg)) :
    Diag.mk ErrKind.matchError msg ∈ (modelsByObjectIds objects pm dm opts).2 := by
  rw [modelsByObjectIds]
  suffices hgen : ∀ (l : List Value) (acc : List (String × Model) × List Diag), o ∈ l →
      Diag.mk ErrKind.matchError msg ∈ (l.foldl
        (fun acc object =>
          match resolveObject object pm dm opts with
          | none => acc
          | some (Except.error msg) => (acc.1, acc.2 ++ [⟨ErrKind.matchError, msg⟩])
          | some (Except.ok model) =>
            (assignEntry acc.1 (idKeyOf object opts) model, acc.2)) acc).2 by
    exact hgen objects ([], []) ho
  intro l
  induction l with
  | nil => intro acc h; simp at h
  | cons x rest ih =>
    intro acc hmem
    rw [List.foldl_cons]
    rcases List.mem_cons.1 hmem with he | he
    · subst he
      rw [hres]
      exact modelsByObjectIds_diag_mono pm dm opts _ rest _ (by simp)
    · exact ih _ he

/-! ### Claim C3: failures are local and recoverable -/

/-- C3: every annotator failure path logs a diagnostic of the documented
kind and returns the offending value unchanged (`ShapeError` on non-object
data and on non-array list values, `SchemaError` on missing/empty `models`
and on an unresolvable single model name); an object whose id resolves no
model passes through the transform structurally identical; and a failing
model query logs a `MatchError` into the transform's diagnostics. -/
theorem c3_local_recoverable_failures :
    (∀ (v : Value) (m : Model) (fp : String) (mbn : List (String × Model)) (dp mp : List String),
      isPlainObject v = false →
      addMetadata v m fp mbn dp mp =
        (v, [⟨ErrKind.shapeError, msgNotObject ++ location fp dp
          (if mp.isEmpty then [m.name.getD "undefined"] else mp)⟩])) ∧
    (∀ (v : Value) (f : Model) (fp : String) (mbn : List (String × Model)) (dp mp : List String),
      f.type = "list" → isArray v = false →
      mapObjectField v f fp mbn dp mp =
        (v, [⟨ErrKind.shapeError, msgListArray ++ location fp dp mp⟩])) ∧
    (∀ (v : Value) (f : Model) (fp : String) (mbn : List (String × Model)) (dp mp : List String),
      f.type = "model" → (f.models = none ∨ f.models = some []) →
      mapObjectField v f fp mbn dp mp =
        (v, [⟨ErrKind.schemaError, msgModelsArray ++ location fp dp mp⟩])) ∧
    (∀ (v : Value) (f : Model) (fp : String) (mbn : List (String × Model)) (dp mp : List String)
      (n : String),
      f.type = "model" → f.models = some [n] → lookupEntry mbn n = none →
      mapObjectField v f fp mbn dp mp =
        (v, [⟨ErrKind.schemaError, msgModelsExisting ++ location fp dp mp⟩])) ∧
    (∀ (objects : List Value) (models : List Model) (opts : MatchOptions) (i : Nat)
      (hi : i < objects.length),
      lookupEntry (modelsByObjectIds objects (models.filter (fun m => m.type = "page"))
        (models.filter (fun m => m.type = "data")) opts).1 (idKeyOf objects[i] opts) = none →
      (matchObjectsToModels objects models opts).1[i]? = some objects[i]) ∧
    (∀ (objects : List Value) (models : List Model) (opts : MatchOptions) (o : Value)
      (msg : String),
      o ∈ objects →
      resolveObject o (models.filter (fun m => m.type = "page"))
        (models.filter (fun m => m.type = "data")) opts = some (Except.error msg) →
      Diag.mk ErrKind.matchError msg ∈ (matchObjectsToModels objects models opts).2) := by
  refine ⟨?_, ?_, ?_, ?_, ?_, ?_⟩
  · exact fun v m fp mbn dp mp h => addMetadata_not_obj v m fp mbn dp mp h
  · intro v f fp mbn dp mp hty hnarr
    cases v with
    | arr xs => simp [isArray] at hnarr
    | null => simp [mapObjectField, hty]
    | bool b => simp [mapObjectField, hty]
    | num n => simp [mapObjectField, hty]
    | str s => simp [mapObjectField, hty]
    | obj es => simp [mapObjectField, hty]
  · intro v f fp mbn dp mp hty hmodels
    rcases hmodels with h | h <;> cases v <;> simp [mapObjectField, hty, h]
  · intro v f fp mbn dp mp n hty hmodels hlook
    cases v <;> simp [mapObjectField, hty, hmodels, hlook]
  · intro objects models opts i hi hnone
    rw [matchObjectsToModels_elem objects models opts i hi]
    rw [annotateObject]
    rw [hnone]
  · intro objects models opts o msg ho hres
    rw [matchObjectsToModels]
    simp only []
    exact List.mem_append_left _
      (modelsByObjectIds_error_mem objects _ _ opts o msg ho hres)

/-- Witness for C3: each failure path at a concrete input — non-object data,
non-array list value, missing `models`, unresolvable single model name,
pass-through of an unmatched object, and a logged `MatchError`. -/
theorem c3_local_recoverable_failures_witness :
    addMetadata (Value.str "s") (Model.mk (some "m") "data" none none [] none none)
      "f" [] [] [] =
      (Value.str "s", [⟨ErrKind.shapeError, msgNotObject ++ location "f" [] ["m"]⟩]) ∧
    mapObjectField (Value.str "s") (Model.mk (some "lst") "list" none none [] none none)
      "f" [] [] [] =
      (Value.str "s", [⟨ErrKind.shapeError, msgListArray ++ location "f" [] []⟩]) ∧
    mapObjectField Value.null (Model.mk (some "mf") "model" none none [] none none)
      "f" [] [] [] =
      (Value.null, [⟨ErrKind.schemaError, msgModelsArray ++ location "f" [] []⟩]) ∧
    mapObjectField Value.null
      (Model.mk (some "mf") "model" none none [] (some ["ghost"]) none) "f" [] [] [] =
      (Value.null, [⟨ErrKind.schemaError, msgModelsExisting ++ location "f" [] []⟩]) ∧
    (matchObjectsToModels [Value.obj []] []
      ⟨fun _ => false, fun _ => false, ["frontmatter", "layout"], ["type"],
        ["__metadata", "id"], ["__metadata", "relSourcePath"], "src", false, false⟩).1[0]? =
      some (Value.obj []) ∧
    Diag.mk ErrKind.matchError "could not match file undefined to a model" ∈
      (matchObjectsToModels [Value.obj []] []
        ⟨fun _ => true, fun _ => false, ["frontmatter", "layout"], ["type"],
          ["__metadata", "id"], ["__metadata", "relSourcePath"], "src", false, false⟩).2 :=
  ⟨c3_local_recoverable_failures.1 (Value.str "s")
      (Model.mk (some "m") "data" none none [] none none) "f" [] [] [] rfl,
   c3_local_recoverable_failures.2.1 (Value.str "s")
      (Model.mk (some "lst") "list" none none [] none none) "f" [] [] [] rfl rfl,
   c3_local_recoverable_failures.2.2.1 Value.null
      (Model.mk (some "mf") "model" none none [] none none) "f" [] [] [] rfl (Or.inl rfl),
   c3_local_recoverable_failures.2.2.2.1 Value.null
      (Model.mk (some "mf") "model" none none [] (some ["ghost"]) none) "f" [] [] []
      "ghost" rfl rfl rfl,
   c3_local_recoverable_failures.2.2.2.2.1 [Value.obj []] []
      ⟨fun _ => false, fun _ => false, ["frontmatter", "layout"], ["type"],
        ["__metadata", "id"], ["__metadata", "relSourcePath"], "src", false, false⟩
      0 (by decide) rfl,
   c3_local_recoverable_failures.2.2.2.2.2 [Value.obj []] []
      ⟨fun _ => true, fun _ => false, ["frontmatter", "layout"], ["type"],
        ["__metadata", "id"], ["__metadata", "relSourcePath"], "src", false, false⟩
      (Value.obj []) "could not match file undefined to a model" (by simp) rfl⟩

/-! ### Claim C10: matching is keyed by object id, later duplicates win -/

/-- C10: the match phase builds a map keyed by each object's id (the value
at `objectIdKeyPath`, coerced to a property key) and the annotation phase
looks each object's model up by its id; a later-processed object that
resolves a model overwrites the map entry for its id, so its model is
applied to every object carrying that id. -/
theorem c10_matching_keyed_by_id :
    (∀ (objects : List Value) (models : List Model) (opts : MatchOptions) (i : Nat)
      (hi : i < objects.length),
      (matchObjectsToModels objects models opts).1[i]? =
        some (match lookupEntry
            (modelsByObjectIds objects (models.filter (fun m => m.type = "page"))
              (models.filter (fun m => m.type = "data")) opts).1
            (idKeyOf objects[i] opts) with
          | none => objects[i]
          | some model =>
            (addMetadata objects[i] model
              (filePathStringOf objects[i] opts.objectFileKeyPath) (keyBy models) [] []).1)) ∧
    (∀ (xs : List Value) (o : Value) (pm dm : List Model) (opts : MatchOptions) (M : Model),
      resolveObject o pm dm opts = some (Except.ok M) →
      lookupEntry (modelsByObjectIds (xs ++ [o]) pm dm opts).1 (idKeyOf o opts) = some M) ∧
    (∀ (xs : List Value) (o : Value) (models : List Model) (opts : MatchOptions)
      (j : Nat) (M : Model) (hj : j < (xs ++ [o]).length),
      resolveObject o (models.filter (fun m => m.type = "page"))
        (models.filter (fun m => m.type = "data")) opts = some (Except.ok M) →
      idKeyOf (xs ++ [o])[j] opts = idKeyOf o opts →
      (matchObjectsToModels (xs ++ [o]) models opts).1[j]? =
        some ((addMetadata (xs ++ [o])[j] M
          (filePathStringOf (xs ++ [o])[j] opts.objectFileKeyPath) (keyBy models) [] []).1)) := by
  have hmap : ∀ (objects : List Value) (models : List Model) (opts : MatchOptions) (i : Nat)
      (hi : i < objects.length),
      (matchObjectsToModels objects models opts).1[i]? =
        some (match lookupEntry
            (modelsByObjectIds objects (models.filter (fun m => m.type = "page"))
              (models.filter (fun m => m.type = "data")) opts).1
            (idKeyOf objects[i] opts) with
          | none => objects[i]
          | some model =>
            (addMetadata objects[i] model
              (filePathStringOf objects[i] opts.objectFileKeyPath) (keyBy models) [] []).1) := by
    intro objects models opts i hi
    rw [matchObjectsToModels_elem objects models opts i hi, annotateObject]
    rcases h : lookupEntry
        (modelsByObjectIds objects (models.filter (fun m => m.type = "page"))
          (models.filter (fun m => m.type = "data")) opts).1
        (idKeyOf objects[i] opts) with _ | model <;> simp [h]
  have hlater : ∀ (xs : List Value) (o : Value) (pm dm : List Model) (opts : MatchOptions)
      (M : Model),
      resolveObject o pm dm opts = some (Except.ok M) →
      lookupEntry (modelsByObjectIds (xs ++ [o]) pm dm opts).1 (idKeyOf o opts) = some M := by
    intro xs o pm dm opts M hres
    rw [modelsByObjectIds, List.foldl_append, List.foldl_cons, List.foldl_nil, hres]
    exact lookupEntry_assignEntry_self _ _ _
  refine ⟨hmap, hlater, ?_⟩
  intro xs o models opts j M hj hres hid
  rw [hmap (xs ++ [o]) models opts j hj, hid,
    hlater xs o (models.filter (fun m => m.type = "page"))
      (models.filter (fun m => m.type = "data")) opts M hres]

/-- Witness for C10: two objects share the id `x`; the later one resolves
the data model `post`, which is then applied to the earlier object at
output position 0. -/
theorem c10_matching_keyed_by_id_witness :
    (matchObjectsToModels
      [Value.obj [("__metadata", Value.obj [("id", Value.str "x")])],
       Value.obj [("__metadata", Value.obj [("id", Value.str "x")]), ("type", Value.str "post")]]
      [Model.mk (some "post") "data" none none [] none none]
      ⟨fun _ => false, fun _ => true, ["frontmatter", "layout"], ["type"],
        ["__metadata", "id"], ["__metadata", "relSourcePath"], "src", false, false⟩).1[0]? =
      some ((addMetadata (Value.obj [("__metadata", Value.obj [("id", Value.str "x")])])
        (Model.mk (some "post") "data" none none [] none none)
        (filePathStringOf (Value.obj [("__metadata", Value.obj [("id", Value.str "x")])])
          ["__metadata", "relSourcePath"])
        (keyBy [Model.mk (some "post") "data" none none [] none none]) [] []).1) :=
  c10_matching_keyed_by_id.2.2
    [Value.obj [("__metadata", Value.obj [("id", Value.str "x")])]]
    (Value.obj [("__metadata", Value.obj [("id", Value.str "x")]), ("type", Value.str "post")])
    [Model.mk (some "post") "data" none none [] none none]
    ⟨fun _ => false, fun _ => true, ["frontmatter", "layout"], ["type"],
      ["__metadata", "id"], ["__metadata", "relSourcePath"], "src", false, false⟩
    0 (Model.mk (some "post") "data" none none [] none none) (by decide)
    rfl rfl

/-! ### Claim C1: model-union discriminator resolution -/

/-- C1 (amended): for a `model` field listing several model names, the field
value must carry a `type` discriminator naming a model that exists in the
schema index (`modelsByName`) — the code never checks the discriminator
against the field's own `models` array; a missing discriminator or one
naming no indexed model yields a `SchemaError` with the value unchanged,
and an indexed discriminator annotates with that model. -/
theorem c1_model_union_discriminator_amended (f : Model) (fp : String)
    (mbn : List (String × Model)) (dp mp : List String) (v : Value)
    (n0 n1 : String) (ns : List String)
    (hty : f.type = "model") (hms : f.models = some (n0 :: n1 :: ns)) :
    (typeKeyOf v = none →
      mapObjectField v f fp mbn dp mp =
        (v, [⟨ErrKind.schemaError, msgTypeRequired ++ location fp dp mp⟩])) ∧
    (∀ n, typeKeyOf v = some (Value.str n) → lookupEntry mbn n = none →
      mapObjectField v f fp mbn dp mp =
        (v, [⟨ErrKind.schemaError, msgTypeExisting ++ location fp dp mp⟩])) ∧
    (∀ n M, typeKeyOf v = some (Value.str n) → lookupEntry mbn n = some M →
      mapObjectField v f fp mbn dp mp = addMetadata v M fp mbn dp []) := by
  refine ⟨?_, ?_, ?_⟩
  · intro h
    cases v <;> simp [mapObjectField, hty, hms, typeKeyOf] <;>
      simp [typeKeyOf] at h <;> simp [h]
  · intro n h hlook
    cases v <;> simp [typeKeyOf] at h <;>
      simp [mapObjectField, hty, hms, typeKeyOf, h, hlook]
  · intro n M h hlook
    cases v <;> simp [typeKeyOf] at h <;>
      simp [mapObjectField, hty, hms, typeKeyOf, h, hlook]

/-- Witness for C1 (amended) at the documented example: a `model` field with
`models: ["hero", "cta"]` — `{text: "Go"}` has no discriminator and fails
with `SchemaError`; `{type: "cta", text: "Go"}` resolves the indexed model
`cta` and is annotated with it. -/
theorem c1_model_union_discriminator_amended_witness :
    mapObjectField (Value.obj [("text", Value.str "Go")])
      (Model.mk (some "act") "model" none none [] (some ["hero", "cta"]) none) "f"
      [("hero", Model.mk (some "hero") "object" none none [] none none),
       ("cta", Model.mk (some "cta") "object" none none [] none none)] [] [] =
      (Value.obj [("text", Value.str "Go")],
        [⟨ErrKind.schemaError, msgTypeRequired ++ location "f" [] []⟩]) ∧
    mapObjectField (Value.obj [("type", Value.str "cta"), ("text", Value.str "Go")])
      (Model.mk (some "act") "model" none none [] (some ["hero", "cta"]) none) "f"
      [("hero", Model.mk (some "hero") "object" none none [] none none),
       ("cta", Model.mk (some "cta") "object" none none [] none none)] [] [] =
      addMetadata (Value.obj [("type", Value.str "cta"), ("text", Value.str "Go")])
        (Model.mk (some "cta") "object" none none [] none none) "f"
        [("hero", Model.mk (some "hero") "object" none none [] none none),
         ("cta", Model.mk (some "cta") "object" none none [] none none)] [] [] :=
  ⟨(c1_model_union_discriminator_amended
      (Model.mk (some "act") "model" none none [] (some ["hero", "cta"]) none) "f"
      [("hero", Model.mk (some "hero") "object" none none [] none none),
       ("cta", Model.mk (some "cta") "object" none none [] none none)] [] []
      (Value.obj [("text", Value.str "Go")]) "hero" "cta" [] rfl rfl).1 rfl,
   (c1_model_union_discriminator_amended
      (Model.mk (some "act") "model" none none [] (some ["hero", "cta"]) none) "f"
      [("hero", Model.mk (some "hero") "object" none none [] none none),
       ("cta", Model.mk (some "cta") "object" none none [] none none)] [] []
      (Value.obj [("type", Value.str "cta"), ("text", Value.str "Go")]) "hero" "cta" []
      rfl rfl).2.2 "cta" (Model.mk (some "cta") "object" none none [] none none) rfl rfl⟩

/-- Counterexample to C1 as stated: the discriminator `banner` is not among
the field's allowed `models: ["hero", "cta"]`, yet no diagnostic is logged
and the value is annotated with the schema-indexed model `banner` —
the claim demands a `SchemaError` and an unchanged value here. -/
theorem c1_counterexample :
    (mapObjectField (Value.obj [("type", Value.str "banner")])
      (Model.mk (some "act") "model" none none [] (some ["hero", "cta"]) none) "f"
      [("hero", Model.mk (some "hero") "object" none none [] none none),
       ("cta", Model.mk (some "cta") "object" none none [] none none),
       ("banner", Model.mk (some "banner") "object" none none [] none none)] [] []).2 = [] ∧
    getPath (mapObjectField (Value.obj [("type", Value.str "banner")])
      (Model.mk (some "act") "model" none none [] (some ["hero", "cta"]) none) "f"
      [("hero", Model.mk (some "hero") "object" none none [] none none),
       ("cta", Model.mk (some "cta") "object" none none [] none none),
       ("banner", Model.mk (some "banner") "object" none none [] none none)] [] []).1
      ["__metadata", "modelName"] = some (Value.str "banner") := by
  constructor <;>
    simp [mapObjectField, addMetadata, mapEntries, computedMeta, ownEntries, jsAssign,
      assignEntry, lookupEntry, typeKeyOf, getPath, Model.name, Model.type, Model.label,
      Model.fields, Model.models, Model.items]

/-! ### Claim C2: `__metadata` merge discipline -/

theorem lookupEntry_eq_none_iff {α : Type} (b : List (String × α)) (k : String) :
    lookupEntry b k = none ↔ k ∉ b.map Prod.fst := by
  induction b with
  | nil => simp
  | cons p rest ih =>
    obtain ⟨a, x⟩ := p
    by_cases ha : a = k
    · subst ha
      simp [lookupEntry_cons]
    · simp [lookupEntry_cons, ha, ih, Ne.symm ha]

@[simp] theorem getPath_nil (v : Value) : getPath v [] = some v := by
  cases v <;> rfl

theorem getPath_obj_cons_some (es : List (String × Value)) (k : String) (rest : List String)
    (w : Value) (h : lookupEntry es k = some w) :
    getPath (Value.obj es) (k :: rest) = getPath w rest := by
  simp [getPath, h]

theorem getPath_obj_cons_none (es : List (String × Value)) (k : String) (rest : List String)
    (h : lookupEntry es k = none) :
    getPath (Value.obj es) (k :: rest) = none := by
  simp [getPath, h]

theorem lookupEntry_jsAssign_of_some {α : Type} (a b : List (String × α)) (k : String) (v : α)
    (hnd : (b.map Prod.fst).Nodup) (h : lookupEntry b k = some v) :
    lookupEntry (jsAssign a b) k = some v := by
  rw [lookupEntry_jsAssign _ _ _ hnd, h]

theorem lookupEntry_jsAssign_of_none {α : Type} (a b : List (String × α)) (k : String)
    (hnd : (b.map Prod.fst).Nodup) (h : lookupEntry b k = none) :
    lookupEntry (jsAssign a b) k = lookupEntry a k := by
  rw [lookupEntry_jsAssign _ _ _ hnd, h]

/-- The keys `addMetadata` ever computes for `__metadata`. -/
theorem computedMeta_keys_mem (m : Model) (fp : String) (k : String)
    (h : k ∈ (computedMeta m fp).map Prod.fst) :
    k = "modelType" ∨ k = "modelName" ∨ k = "modelLabel" ∨ k = "urlPath" := by
  rcases hn : m.name with _ | n <;> rcases hl : m.label with _ | l <;>
    by_cases ht : m.type = "page" <;>
    simp [computedMeta, hn, hl, ht] at h <;> tauto

/-- What annotation leaves under `__metadata` when the model declares no
field of that name: computed keys answer from the computed mapping, all
other keys from the object pre-existing `__metadata` value. -/
theorem addMetadata_meta_lookup (es : List (String × Value)) (model : Model)
    (fp : String) (mbn : List (String × Model)) (dp mp : List String)
    (hf : model.fields.find? (fun f => f.name = some "__metadata") = none) (k : String) :
    getPath (addMetadata (Value.obj es) model fp mbn dp mp).1 ["__metadata", k] =
      if k ∈ (computedMeta model fp).map Prod.fst
      then lookupEntry (computedMeta model fp) k
      else lookupEntry (ownEntries ((lookupEntry es "__metadata").getD (Value.obj []))) k := by
  have hnd := computedMeta_keys_nodup model fp
  rw [addMetadata_obj]
  have hmeta : lookupEntry
      (mapEntries es model.fields fp mbn dp
        (if mp.isEmpty then [model.name.getD "undefined"] else mp)).1 "__metadata" =
      lookupEntry es "__metadata" := by
    rw [mapEntries_fst, lookupEntry_map_entries]
    rcases h : lookupEntry es "__metadata" with _ | w
    · rfl
    · simp [entryMap, hf]
  rw [getPath_obj_cons_some _ _ _ _ (lookupEntry_assignEntry_self _ _ _)]
  rw [hmeta]
  rcases hc : lookupEntry (computedMeta model fp) k with _ | w
  · rw [if_neg (fun hmem => ((lookupEntry_eq_none_iff _ _).1 hc) hmem)]
    have hl := lookupEntry_jsAssign_of_none
      (ownEntries ((lookupEntry es "__metadata").getD (Value.obj [])))
      (computedMeta model fp) k hnd hc
    rcases ho : lookupEntry
        (ownEntries ((lookupEntry es "__metadata").getD (Value.obj []))) k with _ | w2
    · rw [getPath_obj_cons_none _ _ _ (hl.trans ho)]
    · rw [getPath_obj_cons_some _ _ _ _ (hl.trans ho), getPath_nil]
  · have hmem : k ∈ (computedMeta model fp).map Prod.fst := by
      by_contra hmem
      have h0 := (lookupEntry_eq_none_iff (computedMeta model fp) k).2 hmem
      rw [hc] at h0
      exact Option.noConfusion h0
    rw [if_pos hmem]
    rw [getPath_obj_cons_some _ _ _ _ (lookupEntry_jsAssign_of_some _ _ _ _ hnd hc),
      getPath_nil]

/-- C2 (amended): after annotation, the `__metadata` mapping answers every
computed non-nil key (`modelType`, `modelName`, `modelLabel`, and `urlPath`
for pages) with the newly computed value — overwriting any existing entry
under that key — while entries under all other keys are preserved from the
object's original `__metadata`; computed keys whose value would be nil are
omitted, leaving any existing entry visible.  (Stated for models declaring
no field literally named `__metadata`, so the original `__metadata` value
is not itself field-mapped.) -/
theorem c2_metadata_merge_amended (es : List (String × Value)) (model : Model)
    (fp : String) (mbn : List (String × Model)) (dp mp : List String)
    (hf : model.fields.find? (fun f => f.name = some "__metadata") = none) (k : String) :
    getPath (addMetadata (Value.obj es) model fp mbn dp mp).1 ["__metadata", k] =
      if k ∈ (computedMeta model fp).map Prod.fst
      then lookupEntry (computedMeta model fp) k
      else lookupEntry (ownEntries ((lookupEntry es "__metadata").getD (Value.obj []))) k :=
  addMetadata_meta_lookup es model fp mbn dp mp hf k

/-- Witness for C2 (amended): annotating `{__metadata: {modelName: "old",
keep: "x"}}` with the data model named `m` — the computed `modelName`
overwrites `old` with `m`, the uncomputed key `keep` survives, and the
nil-valued `urlPath` is omitted entirely. -/
theorem c2_metadata_merge_amended_witness :
    getPath (addMetadata
      (Value.obj [("__metadata",
        Value.obj [("modelName", Value.str "old"), ("keep", Value.str "x")])])
      (Model.mk (some "m") "data" none none [] none none) "f" [] [] []).1
      ["__metadata", "modelName"] = some (Value.str "m") ∧
    getPath (addMetadata
      (Value.obj [("__metadata",
        Value.obj [("modelName", Value.str "old"), ("keep", Value.str "x")])])
      (Model.mk (some "m") "data" none none [] none none) "f" [] [] []).1
      ["__metadata", "keep"] = some (Value.str "x") ∧
    getPath (addMetadata
      (Value.obj [("__metadata",
        Value.obj [("modelName", Value.str "old"), ("keep", Value.str "x")])])
      (Model.mk (some "m") "data" none none [] none none) "f" [] [] []).1
      ["__metadata", "urlPath"] = none :=
  ⟨c2_metadata_merge_amended
      [("__metadata", Value.obj [("modelName", Value.str "old"), ("keep", Value.str "x")])]
      (Model.mk (some "m") "data" none none [] none none) "f" [] [] [] rfl "modelName",
   c2_metadata_merge_amended
      [("__metadata", Value.obj [("modelName", Value.str "old"), ("keep", Value.str "x")])]
      (Model.mk (some "m") "data" none none [] none none) "f" [] [] [] rfl "keep",
   c2_metadata_merge_amended
      [("__metadata", Value.obj [("modelName", Value.str "old"), ("keep", Value.str "x")])]
      (Model.mk (some "m") "data" none none [] none none) "f" [] [] [] rfl "urlPath"⟩

/-- Counterexample to C2 as stated: the object's `__metadata` already holds
`modelName: "old"`, yet annotation with the model named `m` replaces it —
an existing key is overwritten, which the claim forbids. -/
theorem c2_counterexample :
    getPath (Value.obj [("__metadata",
        Value.obj [("modelName", Value.str "old"), ("keep", Value.str "x")])])
      ["__metadata", "modelName"] = some (Value.str "old") ∧
    getPath (addMetadata
      (Value.obj [("__metadata",
        Value.obj [("modelName", Value.str "old"), ("keep", Value.str "x")])])
      (Model.mk (some "m") "data" none none [] none none) "f" [] [] []).1
      ["__metadata", "modelName"] = some (Value.str "m") ∧
    some (Value.str "m") ≠ some (Value.str "old") := by
  refine ⟨rfl, ?_, by simp⟩
  simp [addMetadata, mapEntries, computedMeta, ownEntries, jsAssign, assignEntry,
    lookupEntry, getPath, Model.name, Model.type, Model.label, Model.fields]

/-! ### Claim C8: no global failure mode -/

theorem getModelByQuery_ok_mem (fp t : Option Value) (kp : String) (ms : List Model)
    (m : Model) (h : getModelByQuery fp t kp ms = Except.ok m) : m ∈ ms := by
  rcases t with _ | v
  · rcases hms : ms with _ | ⟨m0, rest⟩
    · simp [getModelByQuery, hms] at h
    · rcases rest with _ | ⟨m1, rest2⟩
      · simp [getModelByQuery, hms] at h
        simp [hms, h]
      · simp [getModelByQuery, hms] at h
  · cases v with
    | str t0 =>
      rcases hf : ms.filter (fun mm => modelQueryAttr kp mm = some t0) with _ | ⟨m0, rest⟩
      · simp [getModelByQuery, hf] at h
      · rcases rest with _ | ⟨m1, rest2⟩
        · simp [getModelByQuery, hf] at h
          subst h
          exact List.mem_of_mem_filter (hf ▸ List.mem_singleton_self m0)
        · simp [getModelByQuery, hf] at h
    | null => simp [getModelByQuery] at h
    | bool b => simp [getModelByQuery] at h
    | num n => simp [getModelByQuery] at h
    | arr xs => simp [getModelByQuery] at h
    | obj es => simp [getModelByQuery] at h

theorem resolveObject_ok_mem (o : Value) (pm dm : List Model) (opts : MatchOptions)
    (m : Model) (h : resolveObject o pm dm opts = some (Except.ok m)) :
    m ∈ pm ∨ m ∈ dm := by
  rw [resolveObject] at h
  by_cases hp : opts.pageObjectsPredicate o
  · simp [hp] at h
    exact Or.inl (getModelByQuery_ok_mem _ _ _ _ _ h)
  · by_cases hd : opts.dataObjectsPredicate o
    · simp [hp, hd] at h
      exact Or.inr (getModelByQuery_ok_mem _ _ _ _ _ h)
    · simp [hp, hd] at h

theorem modelsByObjectIds_mem (objects : List Value) (pm dm : List Model)
    (opts : MatchOptions) (p : String × Model)
    (hp : p ∈ (modelsByObjectIds objects pm dm opts).1) : p.2 ∈ pm ∨ p.2 ∈ dm := by
  rw [modelsByObjectIds] at hp
  suffices hgen : ∀ (l : List Value) (acc : List (String × Model) × List Diag),
      (∀ q ∈ acc.1, (q : String × Model).2 ∈ pm ∨ q.2 ∈ dm) →
      ∀ q ∈ (l.foldl
        (fun acc object =>
          match resolveObject object pm dm opts with
          | none => acc
          | some (Except.error msg) => (acc.1, acc.2 ++ [⟨ErrKind.matchError, msg⟩])
          | some (Except.ok model) =>
            (assignEntry acc.1 (idKeyOf object opts) model, acc.2)) acc).1,
      (q : String × Model).2 ∈ pm ∨ q.2 ∈ dm by
    exact hgen objects ([], []) (by simp) p hp
  intro l
  induction l with
  | nil => exact fun acc h => h
  | cons o rest ih =>
    intro acc hacc
    rw [List.foldl_cons]
    rcases hres : resolveObject o pm dm opts with _ | e
    · exact ih acc hacc
    · rcases e with msg | m
      · exact ih _ (by simpa using hacc)
      · refine ih _ ?_
        intro q hq
        rcases mem_assignEntry _ _ _ _ (by simpa using hq) with hq2 | hq2
        · exact hacc q hq2
        · rw [hq2]
          exact resolveObject_ok_mem o pm dm opts m hres

theorem jsUniq_sub :
    ∀ (n : Nat) (l : List (Option String)), l.length ≤ n →
      ∀ x ∈ jsUniq l, x ∈ l := by
  intro n
  induction n with
  | zero =>
    intro l hl x hx
    rcases l with _ | ⟨v, rest⟩
    · simpa [jsUniq] using hx
    · simp at hl
  | succ n ih =>
    intro l hl x hx
    rcases l with _ | ⟨v, rest⟩
    · simpa [jsUniq] using hx
    · rw [jsUniq] at hx
      rcases List.mem_cons.1 hx with he | he
      · simp [he]
      · have hlen : (rest.filter (fun w => w ≠ v)).length ≤ n := by
          have h1 := List.length_filter_le (fun w => decide (w ≠ v)) rest
          simp at hl
          omega
        have := ih _ hlen x he
        exact List.mem_cons_of_mem _ (List.mem_of_mem_filter this)

theorem maxBySizeAux_mem (l : List (Option String)) :
    ∀ (r : Option String) (c : Nat), maxBySizeAux r c l = r ∨ maxBySizeAux r c l ∈ l := by
  induction l with
  | nil => intro r c; exact Or.inl rfl
  | cons v rest ih =>
    intro r c
    rw [maxBySizeAux]
    by_cases h : c < jsSizeOfName v
    · rw [if_pos h]
      rcases ih v (jsSizeOfName v) with h2 | h2
      · exact Or.inr (by rw [h2]; exact List.mem_cons_self v rest)
      · exact Or.inr (List.mem_cons_of_mem _ h2)
    · rw [if_neg h]
      rcases ih r c with h2 | h2
      · exact Or.inl h2
      · exact Or.inr (List.mem_cons_of_mem _ h2)

theorem maxBySize_some_mem (l : List (Option String)) (x : Option String)
    (h : maxBySize l = some x) : x ∈ l := by
  rcases l with _ | ⟨v, rest⟩
  · simp [maxBySize] at h
  · rw [maxBySize] at h
    have h2 : maxBySizeAux v (jsSizeOfName v) rest = x := by
      simpa using h
    rcases h2 ▸ maxBySizeAux_mem rest v (jsSizeOfName v) with h3 | h3
    · simp [← h3]
    · exact List.mem_cons_of_mem _ (h2 ▸ h3)

theorem logMatchedThrows_false (matched : List (String × Model))
    (h : ∀ p ∈ matched, ∃ nm, (p : String × Model).2.name = some nm) :
    logMatchedThrows matched = false := by
  cases matched with
  | nil => rfl
  | cons p0 rest =>
    rw [logMatchedThrows]
    rcases hmb : maxBySize (jsUniq ((p0 :: rest).map (fun p => p.2.name))) with _ | x
    · rw [List.map_cons] at hmb
      simp [hmb]
    · rcases x with _ | nm
      · exfalso
        have hmem := maxBySize_some_mem _ _ hmb
        have hmem2 := jsUniq_sub ((p0 :: rest).map (fun p => p.2.name)).length _ le_rfl
          none hmem
        rcases List.mem_map.1 hmem2 with ⟨q, hq, hqn⟩
        rcases h q hq with ⟨nm2, hnm2⟩
        rw [hnm2] at hqn
        exact Option.noConfusion hqn
      · rw [List.map_cons] at hmb
        simp [hmb]

theorem annotateObjectThrows_false (o : Value) (byId mbn : List (String × Model))
    (opts : MatchOptions) (hs : isStringValue (getPath o opts.objectFileKeyPath) = true) :
    annotateObjectThrows o byId mbn opts = false := by
  rw [annotateObjectThrows]
  rcases h : lookupEntry byId (idKeyOf o opts) with _ | m
  · rfl
  · simp [addMetadataThrows, hs]

/-- Annotating an object whose `__metadata` mapping holds a string at an
uncomputed key `k` keeps that string visible at `__metadata.k`, matched or
not. -/
theorem annotateObject_path_string (o : Value) (byId mbn : List (String × Model))
    (opts : MatchOptions) (k : String)
    (hk : opts.objectFileKeyPath = ["__metadata", k])
    (hk4 : k ≠ "modelType" ∧ k ≠ "modelName" ∧ k ≠ "modelLabel" ∧ k ≠ "urlPath")
    (hmf : ∀ p ∈ byId,
      (p : String × Model).2.fields.find? (fun f => f.name = some "__metadata") = none)
    (es me : List (String × Value)) (s : String)
    (ho : o = Value.obj es)
    (hme : lookupEntry es "__metadata" = some (Value.obj me))
    (hs : lookupEntry me k = some (Value.str s)) :
    getPath (annotateObject o byId mbn opts).1 ["__metadata", k] = some (Value.str s) := by
  subst ho
  rw [annotateObject]
  rcases hl : lookupEntry byId (idKeyOf (Value.obj es) opts) with _ | m
  · rw [getPath_obj_cons_some es "__metadata" [k] _ hme,
      getPath_obj_cons_some me k [] _ hs, getPath_nil]
  · have hfm := hmf _ (lookupEntry_mem _ _ _ hl)
    rw [addMetadata_meta_lookup es m
      (filePathStringOf (Value.obj es) opts.objectFileKeyPath) mbn [] [] hfm k]
    rw [if_neg (fun hmem => by
      rcases computedMeta_keys_mem _ _ _ hmem with h | h | h | h <;> simp_all)]
    rw [hme]
    simp only [Option.getD_some, ownEntries]
    exact hs

/-- C8 (amended): under the §6 input contract — every model carries a name
and declares no top-level field named `__metadata`, `objectFileKeyPath` is
`__metadata.<k>` for an uncomputed key `k`, and every input object stores a
string there — no exception escapes `matchObjectsToModels`: the fallible
embedding returns `ok` with the total result, whose object list has the
input length plus the merged data object when `mergeDataModels` is set. -/
theorem c8_no_global_failure_amended (objects : List Value) (models : List Model)
    (opts : MatchOptions) (k : String)
    (hk : opts.objectFileKeyPath = ["__metadata", k])
    (hk4 : k ≠ "modelType" ∧ k ≠ "modelName" ∧ k ≠ "modelLabel" ∧ k ≠ "urlPath")
    (hnames : ∀ m ∈ models, ∃ nm, (m : Model).name = some nm)
    (hmf : ∀ m ∈ models,
      (m : Model).fields.find? (fun f => f.name = some "__metadata") = none)
    (hobj : ∀ o ∈ objects, ∃ es me s, o = Value.obj es ∧
      lookupEntry es "__metadata" = some (Value.obj me) ∧
      lookupEntry me k = some (Value.str s)) :
    matchObjectsToModelsE objects models opts =
      Except.ok (matchObjectsToModels objects models opts) ∧
    (matchObjectsToModels objects models opts).1.length =
      objects.length + (if opts.mergeDataModels then 1 else 0) := by
  constructor
  · have hmemmodels : ∀ p ∈ (modelsByObjectIds objects
        (models.filter (fun m => m.type = "page"))
        (models.filter (fun m => m.type = "data")) opts).1,
        (p : String × Model).2 ∈ models := by
      intro p hp
      rcases modelsByObjectIds_mem _ _ _ _ p hp with h | h
      · exact List.mem_of_mem_filter h
      · exact List.mem_of_mem_filter h
    have hlog : logMatchedThrows (modelsByObjectIds objects
        (models.filter (fun m => m.type = "page"))
        (models.filter (fun m => m.type = "data")) opts).1 = false :=
      logMatchedThrows_false _ (fun p hp => hnames p.2 (hmemmodels p hp))
    have hstr : ∀ o ∈ objects, isStringValue (getPath o opts.objectFileKeyPath) = true := by
      intro o ho
      rcases hobj o ho with ⟨es, me, s, hoe, hme, hs⟩
      subst hoe
      rw [hk, getPath_obj_cons_some es "__metadata" [k] _ hme,
        getPath_obj_cons_some me k [] _ hs, getPath_nil]
      rfl
    have hann : (objects.any (fun object =>
        annotateObjectThrows object (modelsByObjectIds objects
          (models.filter (fun m => m.type = "page"))
          (models.filter (fun m => m.type = "data")) opts).1 (keyBy models) opts)) = false := by
      rw [List.any_eq_false]
      intro o ho
      simp [annotateObjectThrows_false o _ _ opts (hstr o ho)]
    have hmerge : mergeDataObjectsThrows
        ((objects.map (fun object => (annotateObject object (modelsByObjectIds objects
          (models.filter (fun m => m.type = "page"))
          (models.filter (fun m => m.type = "data")) opts).1 (keyBy models) opts).1)).filter
          isDataTagged) opts.objectFileKeyPath = false := by
      rw [mergeDataObjectsThrows, List.any_eq_false]
      intro x hx
      have hx2 := List.mem_of_mem_filter hx
      rcases List.mem_map.1 hx2 with ⟨o, ho, hxo⟩
      rcases hobj o ho with ⟨es, me, s, hoe, hme, hs⟩
      have hpath := annotateObject_path_string o _ (keyBy models) opts k hk hk4
        (fun p hp => hmf p.2 (hmemmodels p hp)) es me s hoe hme hs
      subst hxo
      rw [hk]
      simp [hpath, isStringValue]
    simp only [matchObjectsToModelsE, hlog, hann, hmerge, Bool.and_false]
    simp
  · rw [matchObjectsToModels]
    by_cases h : opts.mergeDataModels <;> simp [h]

/-- Witness for C8 (amended): one well-formed data file object with a
string `relSourcePath`, one named data model, both flags set — the
fallible transform returns `ok` and the output carries the object plus the
merged data object. -/
theorem c8_no_global_failure_amended_witness :
    matchObjectsToModelsE
      [Value.obj [("__metadata", Value.obj
        [("id", Value.str "a.md"), ("relSourcePath", Value.str "a.md")])]]
      [Model.mk (some "post") "data" none none [] none none]
      ⟨fun _ => false, fun _ => true, ["frontmatter", "layout"], ["type"],
        ["__metadata", "id"], ["__metadata", "relSourcePath"], "src", true, true⟩ =
      Except.ok (matchObjectsToModels
        [Value.obj [("__metadata", Value.obj
          [("id", Value.str "a.md"), ("relSourcePath", Value.str "a.md")])]]
        [Model.mk (some "post") "data" none none [] none none]
        ⟨fun _ => false, fun _ => true, ["frontmatter", "layout"], ["type"],
          ["__metadata", "id"], ["__metadata", "relSourcePath"], "src", true, true⟩) ∧
    (matchObjectsToModels
      [Value.obj [("__metadata", Value.obj
        [("id", Value.str "a.md"), ("relSourcePath", Value.str "a.md")])]]
      [Model.mk (some "post") "data" none none [] none none]
      ⟨fun _ => false, fun _ => true, ["frontmatter", "layout"], ["type"],
        ["__metadata", "id"], ["__metadata", "relSourcePath"], "src", true, true⟩).1.length =
      [Value.obj [("__metadata", Value.obj
        [("id", Value.str "a.md"), ("relSourcePath", Value.str "a.md")])]].length +
      (if (⟨fun _ => false, fun _ => true, ["frontmatter", "layout"], ["type"],
        ["__metadata", "id"], ["__metadata", "relSourcePath"], "src", true,
        true⟩ : MatchOptions).mergeDataModels then 1 else 0) :=
  c8_no_global_failure_amended
    [Value.obj [("__metadata", Value.obj
      [("id", Value.str "a.md"), ("relSourcePath", Value.str "a.md")])]]
    [Model.mk (some "post") "data" none none [] none none]
    ⟨fun _ => false, fun _ => true, ["frontmatter", "layout"], ["type"],
      ["__metadata", "id"], ["__metadata", "relSourcePath"], "src", true, true⟩
    "relSourcePath" rfl (by decide)
    (by intro m hm
        simp at hm
        subst hm
        exact ⟨"post", rfl⟩)
    (by intro m hm
        simp at hm
        subst hm
        rfl)
    (by intro o ho
        simp at ho
        subst ho
        exact ⟨_, _, "a.md", rfl, rfl, rfl⟩)

/-- Counterexample to C8 as stated: an input object tagged
`__metadata.modelType: data` but lacking `relSourcePath` reaches
`path.parse(undefined)` inside `mergeDataObjects` under the default
`mergeDataModels`, so the transform throws a `TypeError` instead of
returning an object list. -/
theorem c8_counterexample :
    getPath (Value.obj [("__metadata", Value.obj [("modelType", Value.str "data")])])
      ["__metadata", "relSourcePath"] = none ∧
    matchObjectsToModelsE
      [Value.obj [("__metadata", Value.obj [("modelType", Value.str "data")])]]
      []
      ⟨fun _ => false, fun _ => false, ["frontmatter", "layout"], ["type"],
        ["__metadata", "id"], ["__metadata", "relSourcePath"], "src", true, false⟩ =
      Except.error msgPathTypeError :=
  ⟨rfl, rfl⟩

/-! ### Claim C7: `list` field dispatch -/

/-- C7: a `list` field rejects non-sequences with a `ShapeError` (value
unchanged); on a sequence it dispatches the item declaration — defaulting to
scalar `string` when the field has no `items` — onto every element in
order (the element at index `i` maps through `mapObjectField` with the
data path extended by the index); and on the documented example the two
object items each gain `modelType: "object"` and no `urlPath`. -/
theorem c7_list_dispatch :
    (∀ (v : Value) (f : Model) (fp : String) (mbn : List (String × Model)) (dp mp : List String),
      f.type = "list" → isArray v = false →
      mapObjectField v f fp mbn dp mp =
        (v, [⟨ErrKind.shapeError, msgListArray ++ location fp dp mp⟩])) ∧
    (∀ (xs : List Value) (f : Model) (fp : String) (mbn : List (String × Model))
      (dp mp : List String),
      f.type = "list" →
      mapObjectField (Value.arr xs) f fp mbn dp mp =
        (Value.arr (mapItems xs (f.items.getD defaultItemModel) fp mbn dp
          (mp ++ ["items"]) 0).1,
         (mapItems xs (f.items.getD defaultItemModel) fp mbn dp (mp ++ ["items"]) 0).2)) ∧
    (∀ (xs : List Value) (im : Model) (fp : String) (mbn : List (String × Model))
      (dp mp : List String) (idx i : Nat),
      (mapItems xs im fp mbn dp mp idx).1[i]? =
        (xs[i]?).map (fun x =>
          (mapObjectField x im fp mbn (dp ++ [toString (idx + i)]) mp).1)) ∧
    (getPath (mapObjectField
        (Value.arr [Value.obj [("title", Value.str "a")], Value.obj [("title", Value.str "b")]])
        (Model.mk (some "xs") "list" none none [] none
          (some (Model.mk none "object" none none
            [Model.mk (some "title") "string" none none [] none none] none none)))
        "f" [] [] []).1 ["0", "__metadata", "modelType"] = some (Value.str "object") ∧
     getPath (mapObjectField
        (Value.arr [Value.obj [("title", Value.str "a")], Value.obj [("title", Value.str "b")]])
        (Model.mk (some "xs") "list" none none [] none
          (some (Model.mk none "object" none none
            [Model.mk (some "title") "string" none none [] none none] none none)))
        "f" [] [] []).1 ["0", "__metadata", "urlPath"] = none ∧
     getPath (mapObjectField
        (Value.arr [Value.obj [("title", Value.str "a")], Value.obj [("title", Value.str "b")]])
        (Model.mk (some "xs") "list" none none [] none
          (some (Model.mk none "object" none none
            [Model.mk (some "title") "string" none none [] none none] none none)))
        "f" [] [] []).1 ["1", "__metadata", "modelType"] = some (Value.str "object") ∧
     getPath (mapObjectField
        (Value.arr [Value.obj [("title", Value.str "a")], Value.obj [("title", Value.str "b")]])
        (Model.mk (some "xs") "list" none none [] none
          (some (Model.mk none "object" none none
            [Model.mk (some "title") "string" none none [] none none] none none)))
        "f" [] [] []).1 ["1", "__metadata", "urlPath"] = none) := by
  refine ⟨?_, ?_, ?_, ?_⟩
  · intro v f fp mbn dp mp hty hnarr
    cases v with
    | arr xs => simp [isArray] at hnarr
    | null => simp [mapObjectField, hty]
    | bool b => simp [mapObjectField, hty]
    | num n => simp [mapObjectField, hty]
    | str st => simp [mapObjectField, hty]
    | obj es => simp [mapObjectField, hty]
  · intro xs f fp mbn dp mp hty
    simp [mapObjectField, hty]
  · exact fun xs im fp mbn dp mp idx i => mapItems_getElem xs im fp mbn dp mp idx i
  · refine ⟨?_, ?_, ?_, ?_⟩ <;>
      (simp [mapObjectField, mapItems, addMetadata, mapEntries,
        computedMeta, ownEntries, jsAssign, assignEntry, lookupEntry, getPath,
        defaultItemModel, Model.name, Model.type, Model.label, Model.fields,
        Model.models, Model.items]
       rfl)

/-- Witness for C7: the non-array branch at `"nope"` and the array branch
at the documented two-element list. -/
theorem c7_list_dispatch_witness :
    mapObjectField (Value.str "nope")
      (Model.mk (some "xs") "list" none none [] none none) "f" [] [] [] =
      (Value.str "nope", [⟨ErrKind.shapeError, msgListArray ++ location "f" [] []⟩]) ∧
    mapObjectField
      (Value.arr [Value.obj [("title", Value.str "a")], Value.obj [("title", Value.str "b")]])
      (Model.mk (some "xs") "list" none none [] none
        (some (Model.mk none "object" none none
          [Model.mk (some "title") "string" none none [] none none] none none)))
      "f" [] [] [] =
      (Value.arr (mapItems
          [Value.obj [("title", Value.str "a")], Value.obj [("title", Value.str "b")]]
          (Model.mk none "object" none none
            [Model.mk (some "title") "string" none none [] none none] none none)
          "f" [] [] ["items"] 0).1,
       (mapItems
          [Value.obj [("title", Value.str "a")], Value.obj [("title", Value.str "b")]]
          (Model.mk none "object" none none
            [Model.mk (some "title") "string" none none [] none none] none none)
          "f" [] [] ["items"] 0).2) :=
  ⟨c7_list_dispatch.1 (Value.str "nope")
      (Model.mk (some "xs") "list" none none [] none none) "f" [] [] [] rfl rfl,
   c7_list_dispatch.2.1
      [Value.obj [("title", Value.str "a")], Value.obj [("title", Value.str "b")]]
      (Model.mk (some "xs") "list" none none [] none
        (some (Model.mk none "object" none none
          [Model.mk (some "title") "string" none none [] none none] none none)))
      "f" [] [] [] rfl⟩

/-! ### Branch characterizations of `mapObjectField` (for the idempotence proof) -/

theorem mofl_object (v : Value) (f : Model) (fp : String) (mbn : List (String × Model))
    (dp mp : List String) (hty : f.type = "object") :
    mapObjectField v f fp mbn dp mp = addMetadata v f fp mbn dp mp := by
  cases v <;> simp [mapObjectField, hty]

theorem mofl_model_single_found (v : Value) (f : Model) (fp : String)
    (mbn : List (String × Model)) (dp mp : List String) (n : String) (M : Model)
    (hty : f.type = "model") (hms : f.models = some [n])
    (hl : lookupEntry mbn n = some M) :
    mapObjectField v f fp mbn dp mp = addMetadata v M fp mbn dp [] := by
  cases v <;> simp [mapObjectField, hty, hms, hl]

theorem mofl_model_single_unres (v : Value) (f : Model) (fp : String)
    (mbn : List (String × Model)) (dp mp : List String) (n : String)
    (hty : f.type = "model") (hms : f.models = some [n])
    (hl : lookupEntry mbn n = none) :
    mapObjectField v f fp mbn dp mp =
      (v, [⟨ErrKind.schemaError, msgModelsExisting ++ location fp dp mp⟩]) := by
  cases v <;> simp [mapObjectField, hty, hms, hl]

theorem mofl_model_none (v : Value) (f : Model) (fp : String)
    (mbn : List (String × Model)) (dp mp : List String)
    (hty : f.type = "model") (hms : f.models = none ∨ f.models = some []) :
    mapObjectField v f fp mbn dp mp =
      (v, [⟨ErrKind.schemaError, msgModelsArray ++ location fp dp mp⟩]) := by
  rcases hms with h | h <;> cases v <;> simp [mapObjectField, hty, h]

theorem mofl_model_multi_notype (v : Value) (f : Model) (fp : String)
    (mbn : List (String × Model)) (dp mp : List String) (n0 n1 : String) (ns : List String)
    (hty : f.type = "model") (hms : f.models = some (n0 :: n1 :: ns))
    (ht : typeKeyOf v = none) :
    mapObjectField v f fp mbn dp mp =
      (v, [⟨ErrKind.schemaError, msgTypeRequired ++ location fp dp mp⟩]) := by
  cases v <;> simp [typeKeyOf] at ht ⊢ <;> simp [mapObjectField, hty, hms, typeKeyOf, ht]

theorem mofl_model_multi_nonstr (v : Value) (f : Model) (fp : String)
    (mbn : List (String × Model)) (dp mp : List String) (n0 n1 : String) (ns : List String)
    (w : Value) (hty : f.type = "model") (hms : f.models = some (n0 :: n1 :: ns))
    (ht : typeKeyOf v = some w) (hw : ∀ st : String, w ≠ Value.str st) :
    mapObjectField v f fp mbn dp mp =
      (v, [⟨ErrKind.schemaError, msgTypeExisting ++ location fp dp mp⟩]) := by
  cases v <;> simp [typeKeyOf] at ht <;>
    cases w <;> first
    | exact absurd rfl (hw _)
    | simp [mapObjectField, hty, hms, typeKeyOf, ht]

theorem mofl_model_multi_unres (v : Value) (f : Model) (fp : String)
    (mbn : List (String × Model)) (dp mp : List String) (n0 n1 : String) (ns : List String)
    (n : String) (hty : f.type = "model") (hms : f.models = some (n0 :: n1 :: ns))
    (ht : typeKeyOf v = some (Value.str n)) (hl : lookupEntry mbn n = none) :
    mapObjectField v f fp mbn dp mp =
      (v, [⟨ErrKind.schemaError, msgTypeExisting ++ location fp dp mp⟩]) := by
  cases v <;> simp [typeKeyOf] at ht <;>
    simp [mapObjectField, hty, hms, typeKeyOf, ht, hl]

theorem mofl_model_multi_found (v : Value) (f : Model) (fp : String)
    (mbn : List (String × Model)) (dp mp : List String) (n0 n1 : String) (ns : List String)
    (n : String) (M : Model) (hty : f.type = "model") (hms : f.models = some (n0 :: n1 :: ns))
    (ht : typeKeyOf v = some (Value.str n)) (hl : lookupEntry mbn n = some M) :
    mapObjectField v f fp mbn dp mp = addMetadata v M fp mbn dp [] := by
  cases v <;> simp [typeKeyOf] at ht <;>
    simp [mapObjectField, hty, hms, typeKeyOf, ht, hl]

theorem mofl_ref_notype (v : Value) (f : Model) (fp : String)
    (mbn : List (String × Model)) (dp mp : List String)
    (hty : f.type = "reference") (ht : typeKeyOf v = none) :
    mapObjectField v f fp mbn dp mp = (v, []) := by
  cases v <;> simp [typeKeyOf] at ht ⊢ <;> simp [mapObjectField, hty, typeKeyOf, ht]

theorem mofl_ref_nonstr (v : Value) (f : Model) (fp : String)
    (mbn : List (String × Model)) (dp mp : List String) (w : Value)
    (hty : f.type = "reference") (ht : typeKeyOf v = some w)
    (hw : ∀ st : String, w ≠ Value.str st) :
    mapObjectField v f fp mbn dp mp = (v, []) := by
  cases v <;> simp [typeKeyOf] at ht <;>
    cases w <;> first
    | exact absurd rfl (hw _)
    | simp [mapObjectField, hty, typeKeyOf, ht]

theorem mofl_ref_unres (v : Value) (f : Model) (fp : String)
    (mbn : List (String × Model)) (dp mp : List String) (n : String)
    (hty : f.type = "reference") (ht : typeKeyOf v = some (Value.str n))
    (hl : lookupEntry mbn n = none) :
    mapObjectField v f fp mbn dp mp = (v, []) := by
  cases v <;> simp [typeKeyOf] at ht <;>
    simp [mapObjectField, hty, typeKeyOf, ht, hl]

theorem mofl_ref_found (v : Value) (f : Model) (fp : String)
    (mbn : List (String × Model)) (dp mp : List String) (n : String) (M : Model)
    (hty : f.type = "reference") (ht : typeKeyOf v = some (Value.str n))
    (hl : lookupEntry mbn n = some M) :
    mapObjectField v f fp mbn dp mp = addMetadata v M fp mbn dp [] := by
  cases v <;> simp [typeKeyOf] at ht <;>
    simp [mapObjectField, hty, typeKeyOf, ht, hl]

theorem mofl_list_arr (xs : List Value) (f : Model) (fp : String)
    (mbn : List (String × Model)) (dp mp : List String) (hty : f.type = "list") :
    mapObjectField (Value.arr xs) f fp mbn dp mp =
      (Value.arr (mapItems xs (f.items.getD defaultItemModel) fp mbn dp
        (mp ++ ["items"]) 0).1,
       (mapItems xs (f.items.getD defaultItemModel) fp mbn dp (mp ++ ["items"]) 0).2) := by
  simp [mapObjectField, hty]

theorem mofl_list_nonarr (v : Value) (f : Model) (fp : String)
    (mbn : List (String × Model)) (dp mp : List String)
    (hty : f.type = "list") (hnarr : isArray v = false) :
    mapObjectField v f fp mbn dp mp =
      (v, [⟨ErrKind.shapeError, msgListArray ++ location fp dp mp⟩]) := by
  cases v with
  | arr xs => simp [isArray] at hnarr
  | null => simp [mapObjectField, hty]
  | bool b => simp [mapObjectField, hty]
  | num n => simp [mapObjectField, hty]
  | str st => simp [mapObjectField, hty]
  | obj es => simp [mapObjectField, hty]

theorem mofl_scalar_type (v : Value) (f : Model) (fp : String)
    (mbn : List (String × Model)) (dp mp : List String)
    (h1 : f.type ≠ "object") (h2 : f.type ≠ "model") (h3 : f.type ≠ "reference")
    (h4 : f.type ≠ "list") :
    mapObjectField v f fp mbn dp mp = (v, []) := by
  cases v <;> simp [mapObjectField, h1, h2, h3, h4]

/-! ### Fixpoint and preservation lemmas for idempotence -/

theorem mapEntries_fix (es : List (String × Value)) (fields : List Model) (fp : String)
    (mbn : List (String × Model)) (dp mp : List String)
    (h : ∀ (k : String) (v : Value) (f : Model), (k, v) ∈ es →
      fields.find? (fun f2 => f2.name = some k) = some f →
      (mapObjectField v f fp mbn (dp ++ [k]) (mp ++ ["fields", k])).1 = v) :
    (mapEntries es fields fp mbn dp mp).1 = es := by
  induction es with
  | nil => simp [mapEntries]
  | cons p rest ih =>
    obtain ⟨k, v⟩ := p
    have htl := ih (fun k2 v2 f2 hmem hfind => h k2 v2 f2 (by simp [hmem]) hfind)
    rcases hf : fields.find? (fun f2 => f2.name = some k) with _ | f
    · simp [mapEntries, hf, htl]
    · simp [mapEntries, hf, htl, h k v f (by simp) hf]

theorem mapItems_fix (im : Model) (fp : String) (mbn : List (String × Model))
    (mp : List String) :
    ∀ (xs : List Value) (dp : List String) (idx : Nat),
      (∀ (i : Nat) (x : Value), xs[i]? = some x →
        (mapObjectField x im fp mbn (dp ++ [toString (idx + i)]) mp).1 = x) →
      (mapItems xs im fp mbn dp mp idx).1 = xs := by
  intro xs
  induction xs with
  | nil => intro dp idx _; simp [mapItems]
  | cons x rest ih =>
    intro dp idx h
    have hhd : (mapObjectField x im fp mbn (dp ++ [toString idx]) mp).1 = x := by
      have := h 0 x (by simp)
      simpa using this
    have htl : (mapItems rest im fp mbn dp mp (idx + 1)).1 = rest := by
      refine ih dp (idx + 1) ?_
      intro i y hy
      have := h (i + 1) y (by simpa using hy)
      rwa [show idx + (i + 1) = idx + 1 + i by omega] at this
    simp [mapItems, hhd, htl]

theorem entryMap_scalar (fields : List Model) (fp : String) (mbn : List (String × Model))
    (dp mp : List String) (k : String) (v : Value)
    (h1 : isPlainObject v = false) (h2 : isArray v = false) :
    entryMap fields fp mbn dp mp k v = v := by
  rw [entryMap]
  rcases hf : fields.find? (fun f2 => f2.name = some k) with _ | f
  · simp [hf]
  · simp [hf]
    exact mapObjectField_fst_scalar _ _ _ _ _ _ h1 h2

theorem addMetadata_fst_lookup (es : List (String × Value)) (M : Model) (fp : String)
    (mbn : List (String × Model)) (dp mp : List String) (k : String)
    (hk : k ≠ "__metadata") :
    ∃ es1, (addMetadata (Value.obj es) M fp mbn dp mp).1 = Value.obj es1 ∧
      lookupEntry es1 k = (lookupEntry es k).map
        (entryMap M.fields fp mbn dp
          (if mp.isEmpty then [M.name.getD "undefined"] else mp) k) := by
  rw [addMetadata_obj]
  refine ⟨_, rfl, ?_⟩
  rw [lookupEntry_assignEntry_ne _ _ _ _ hk, mapEntries_fst, lookupEntry_map_entries]

theorem typeKeyOf_eq_some (v : Value) (w : Value) (h : typeKeyOf v = some w) :
    ∃ es, v = Value.obj es ∧ lookupEntry es "type" = some w := by
  cases v <;> simp [typeKeyOf] at h <;> exact ⟨_, rfl, h⟩

theorem typeKeyOf_addMetadata (es : List (String × Value)) (M : Model) (fp : String)
    (mbn : List (String × Model)) (dp mp : List String) (n : String)
    (h : lookupEntry es "type" = some (Value.str n)) :
    typeKeyOf (addMetadata (Value.obj es) M fp mbn dp mp).1 = some (Value.str n) := by
  obtain ⟨es1, heq, hlook⟩ :=
    addMetadata_fst_lookup es M fp mbn dp mp "type" (by decide)
  rw [heq]
  show lookupEntry es1 "type" = some (Value.str n)
  rw [hlook, h]
  simp [entryMap_scalar, isPlainObject, isArray]

@[simp] theorem ownEntries_obj (es : List (String × Value)) :
    ownEntries (Value.obj es) = es := rfl

theorem mof_pass_idem (v : Value) (f : Model) (fp : String) (mbn : List (String × Model))
    (dp mp : List String) (d : List Diag)
    (h : mapObjectField v f fp mbn dp mp = (v, d)) :
    (mapObjectField (mapObjectField v f fp mbn dp mp).1 f fp mbn dp mp).1 =
      (mapObjectField v f fp mbn dp mp).1 := by
  have h1 : (mapObjectField v f fp mbn dp mp).1 = v := by rw [h]
  rw [h1]
  exact h1

/-- Strong-induction core of the idempotence property: re-running
`addMetadata` (resp. `mapObjectField`) on its own output with the same model
and file path reproduces that output, provided no field declaration
reachable from the model or from the schema index is named `__metadata`. -/
theorem annotate_idem_aux (N : Nat) :
    (∀ (v : Value) (model : Model) (fp : String) (mbn : List (String × Model))
      (dp mp : List String), sizeOf v ≤ N → noMetaField model = true →
      (∀ p ∈ mbn, noMetaField p.2 = true) →
      (addMetadata (addMetadata v model fp mbn dp mp).1 model fp mbn dp mp).1 =
        (addMetadata v model fp mbn dp mp).1) ∧
    (∀ (v : Value) (f : Model) (fp : String) (mbn : List (String × Model))
      (dp mp : List String), sizeOf v ≤ N → noMetaField f = true →
      (∀ p ∈ mbn, noMetaField p.2 = true) →
      (mapObjectField (mapObjectField v f fp mbn dp mp).1 f fp mbn dp mp).1 =
        (mapObjectField v f fp mbn dp mp).1) := by
  induction N using Nat.strong_induction_on with
  | _ N ih =>
  have hA : ∀ (v : Value) (model : Model) (fp : String) (mbn : List (String × Model))
      (dp mp : List String), sizeOf v ≤ N → noMetaField model = true →
      (∀ p ∈ mbn, noMetaField p.2 = true) →
      (addMetadata (addMetadata v model fp mbn dp mp).1 model fp mbn dp mp).1 =
        (addMetadata v model fp mbn dp mp).1 := by
    intro v model fp mbn dp mp hsz hnm hmbn
    cases v with
    | null =>
      rw [addMetadata_fst_not_obj Value.null model fp mbn dp mp rfl]
      exact addMetadata_fst_not_obj Value.null model fp mbn dp mp rfl
    | bool b =>
      rw [addMetadata_fst_not_obj (Value.bool b) model fp mbn dp mp rfl]
      exact addMetadata_fst_not_obj (Value.bool b) model fp mbn dp mp rfl
    | num n =>
      rw [addMetadata_fst_not_obj (Value.num n) model fp mbn dp mp rfl]
      exact addMetadata_fst_not_obj (Value.num n) model fp mbn dp mp rfl
    | str st =>
      rw [addMetadata_fst_not_obj (Value.str st) model fp mbn dp mp rfl]
      exact addMetadata_fst_not_obj (Value.str st) model fp mbn dp mp rfl
    | arr xs =>
      rw [addMetadata_fst_not_obj (Value.arr xs) model fp mbn dp mp rfl]
      exact addMetadata_fst_not_obj (Value.arr xs) model fp mbn dp mp rfl
    | obj es =>
      have hfields := noMetaField_fields model hnm
      have hfind := find_meta_none model.fields hfields
      rw [addMetadata_obj, addMetadata_obj]
      have hfix : (mapEntries
          (assignEntry (mapEntries es model.fields fp mbn dp
              (if mp.isEmpty then [model.name.getD "undefined"] else mp)).1 "__metadata"
            (Value.obj (jsAssign
              (ownEntries ((lookupEntry (mapEntries es model.fields fp mbn dp
                  (if mp.isEmpty then [model.name.getD "undefined"] else mp)).1
                "__metadata").getD (Value.obj [])))
              (computedMeta model fp))))
          model.fields fp mbn dp
          (if mp.isEmpty then [model.name.getD "undefined"] else mp)).1 =
          assignEntry (mapEntries es model.fields fp mbn dp
              (if mp.isEmpty then [model.name.getD "undefined"] else mp)).1 "__metadata"
            (Value.obj (jsAssign
              (ownEntries ((lookupEntry (mapEntries es model.fields fp mbn dp
                  (if mp.isEmpty then [model.name.getD "undefined"] else mp)).1
                "__metadata").getD (Value.obj [])))
              (computedMeta model fp))) := by
        apply mapEntries_fix
        intro k v2 f2 hmem hf2
        rcases mem_assignEntry _ _ _ _ hmem with hmem2 | heq2
        · rw [mapEntries_fst] at hmem2
          obtain ⟨p0, hmem0, heq0⟩ := List.mem_map.1 hmem2
          obtain ⟨k0, v0⟩ := p0
          injection heq0 with hk0 hv2
          subst hk0
          subst hv2
          rw [entryMap, hf2]
          have hszv0 : sizeOf v0 < N := by
            have h1 := List.sizeOf_lt_of_mem hmem0
            simp only [Prod.mk.sizeOf_spec] at h1
            have h2 : sizeOf (Value.obj es) ≤ N := hsz
            simp only [Value.obj.sizeOf_spec] at h2
            omega
          have hnf2 : noMetaField f2 = true :=
            (noMetaFields_mem _ _ hfields (List.mem_of_find?_eq_some hf2)).2
          exact (ih (sizeOf v0) hszv0).2 v0 f2 fp mbn _ _ le_rfl hnf2 hmbn
        · injection heq2 with hk hv
          subst hk
          rw [hfind] at hf2
          exact Option.noConfusion hf2
      rw [hfix]
      rw [lookupEntry_assignEntry_self]
      rw [Option.getD_some]
      rw [ownEntries_obj]
      rw [jsAssign_jsAssign_self _ _ (computedMeta_keys_nodup model fp)]
      rw [assignEntry_assignEntry]
  refine ⟨hA, ?_⟩
  intro v f fp mbn dp mp hsz hnf hmbn
  by_cases ho : f.type = "object"
  · rw [mofl_object v f fp mbn dp mp ho, mofl_object _ f fp mbn dp mp ho]
    exact hA v f fp mbn dp mp hsz hnf hmbn
  by_cases hm : f.type = "model"
  · rcases hms : f.models with _ | ms
    · exact mof_pass_idem _ _ _ _ _ _ _ (mofl_model_none v f fp mbn dp mp hm (Or.inl hms))
    rcases ms with _ | ⟨na, ms2⟩
    · exact mof_pass_idem _ _ _ _ _ _ _ (mofl_model_none v f fp mbn dp mp hm (Or.inr hms))
    rcases ms2 with _ | ⟨nb, ms3⟩
    · rcases hl : lookupEntry mbn na with _ | M
      · exact mof_pass_idem _ _ _ _ _ _ _
          (mofl_model_single_unres v f fp mbn dp mp na hm hms hl)
      · have h1 := mofl_model_single_found v f fp mbn dp mp na M hm hms hl
        have h2 := mofl_model_single_found (addMetadata v M fp mbn dp []).1
          f fp mbn dp mp na M hm hms hl
        rw [h1, h2]
        exact hA v M fp mbn dp [] hsz (hmbn (na, M) (lookupEntry_mem mbn na M hl)) hmbn
    · rcases ht : typeKeyOf v with _ | w
      · exact mof_pass_idem _ _ _ _ _ _ _
          (mofl_model_multi_notype v f fp mbn dp mp na nb ms3 hm hms ht)
      rcases w with _ | b | iz | n | axs | aes
      · exact mof_pass_idem _ _ _ _ _ _ _
          (mofl_model_multi_nonstr v f fp mbn dp mp na nb ms3 _ hm hms ht
            (fun st h => by cases h))
      · exact mof_pass_idem _ _ _ _ _ _ _
          (mofl_model_multi_nonstr v f fp mbn dp mp na nb ms3 _ hm hms ht
            (fun st h => by cases h))
      · exact mof_pass_idem _ _ _ _ _ _ _
          (mofl_model_multi_nonstr v f fp mbn dp mp na nb ms3 _ hm hms ht
            (fun st h => by cases h))
      · rcases hl : lookupEntry mbn n with _ | M
        · exact mof_pass_idem _ _ _ _ _ _ _
            (mofl_model_multi_unres v f fp mbn dp mp na nb ms3 n hm hms ht hl)
        · have h1 := mofl_model_multi_found v f fp mbn dp mp na nb ms3 n M hm hms ht hl
          obtain ⟨es2, hveq, hlook2⟩ := typeKeyOf_eq_some v _ ht
          have ht2 : typeKeyOf (addMetadata v M fp mbn dp []).1 = some (Value.str n) := by
            rw [hveq]
            exact typeKeyOf_addMetadata es2 M fp mbn dp [] n hlook2
          have h2 := mofl_model_multi_found (addMetadata v M fp mbn dp []).1
            f fp mbn dp mp na nb ms3 n M hm hms ht2 hl
          rw [h1, h2]
          exact hA v M fp mbn dp [] hsz (hmbn (n, M) (lookupEntry_mem mbn n M hl)) hmbn
      · exact mof_pass_idem _ _ _ _ _ _ _
          (mofl_model_multi_nonstr v f fp mbn dp mp na nb ms3 _ hm hms ht
            (fun st h => by cases h))
      · exact mof_pass_idem _ _ _ _ _ _ _
          (mofl_model_multi_nonstr v f fp mbn dp mp na nb ms3 _ hm hms ht
            (fun st h => by cases h))
  by_cases hr : f.type = "reference"
  · rcases ht : typeKeyOf v with _ | w
    · exact mof_pass_idem _ _ _ _ _ _ _ (mofl_ref_notype v f fp mbn dp mp hr ht)
    rcases w with _ | b | iz | n | axs | aes
    · exact mof_pass_idem _ _ _ _ _ _ _
        (mofl_ref_nonstr v f fp mbn dp mp _ hr ht (fun st h => by cases h))
    · exact mof_pass_idem _ _ _ _ _ _ _
        (mofl_ref_nonstr v f fp mbn dp mp _ hr ht (fun st h => by cases h))
    · exact mof_pass_idem _ _ _ _ _ _ _
        (mofl_ref_nonstr v f fp mbn dp mp _ hr ht (fun st h => by cases h))
    · rcases hl : lookupEntry mbn n with _ | M
      · exact mof_pass_idem _ _ _ _ _ _ _ (mofl_ref_unres v f fp mbn dp mp n hr ht hl)
      · have h1 := mofl_ref_found v f fp mbn dp mp n M hr ht hl
        obtain ⟨es2, hveq, hlook2⟩ := typeKeyOf_eq_some v _ ht
        have ht2 : typeKeyOf (addMetadata v M fp mbn dp []).1 = some (Value.str n) := by
          rw [hveq]
          exact typeKeyOf_addMetadata es2 M fp mbn dp [] n hlook2
        have h2 := mofl_ref_found (addMetadata v M fp mbn dp []).1
          f fp mbn dp mp n M hr ht2 hl
        rw [h1, h2]
        exact hA v M fp mbn dp [] hsz (hmbn (n, M) (lookupEntry_mem mbn n M hl)) hmbn
    · exact mof_pass_idem _ _ _ _ _ _ _
        (mofl_ref_nonstr v f fp mbn dp mp _ hr ht (fun st h => by cases h))
    · exact mof_pass_idem _ _ _ _ _ _ _
        (mofl_ref_nonstr v f fp mbn dp mp _ hr ht (fun st h => by cases h))
  by_cases hli : f.type = "list"
  · cases v with
    | arr xs =>
      have him := noMetaField_items f hnf
      have h1 := mofl_list_arr xs f fp mbn dp mp hli
      have hfixitems : (mapItems
          (mapItems xs (f.items.getD defaultItemModel) fp mbn dp (mp ++ ["items"]) 0).1
          (f.items.getD defaultItemModel) fp mbn dp (mp ++ ["items"]) 0).1 =
          (mapItems xs (f.items.getD defaultItemModel) fp mbn dp (mp ++ ["items"]) 0).1 := by
        apply mapItems_fix
        intro i y hy
        rw [mapItems_getElem] at hy
        rcases hx : xs[i]? with _ | x
        · rw [hx] at hy
          exact Option.noConfusion hy
        · rw [hx] at hy
          simp only [Option.map_some'] at hy
          injection hy with hy2
          subst hy2
          have hszx : sizeOf x < N := by
            have h2 := List.sizeOf_lt_of_mem (List.getElem?_mem hx)
            have h3 : sizeOf (Value.arr xs) ≤ N := hsz
            simp only [Value.arr.sizeOf_spec] at h3
            omega
          exact (ih (sizeOf x) hszx).2 x (f.items.getD defaultItemModel) fp mbn
            (dp ++ [toString (0 + i)]) (mp ++ ["items"]) le_rfl him hmbn
      have h2 := mofl_list_arr
        (mapItems xs (f.items.getD defaultItemModel) fp mbn dp (mp ++ ["items"]) 0).1
        f fp mbn dp mp hli
      rw [h1]
      show (mapObjectField (Value.arr
        (mapItems xs (f.items.getD defaultItemModel) fp mbn dp (mp ++ ["items"]) 0).1)
        f fp mbn dp mp).1 =
        Value.arr (mapItems xs (f.items.getD defaultItemModel) fp mbn dp (mp ++ ["items"]) 0).1
      rw [h2]
      show Value.arr (mapItems
        (mapItems xs (f.items.getD defaultItemModel) fp mbn dp (mp ++ ["items"]) 0).1
        (f.items.getD defaultItemModel) fp mbn dp (mp ++ ["items"]) 0).1 =
        Value.arr (mapItems xs (f.items.getD defaultItemModel) fp mbn dp (mp ++ ["items"]) 0).1
      rw [hfixitems]
    | null =>
      exact mof_pass_idem _ _ _ _ _ _ _ (mofl_list_nonarr _ f fp mbn dp mp hli rfl)
    | bool b =>
      exact mof_pass_idem _ _ _ _ _ _ _ (mofl_list_nonarr _ f fp mbn dp mp hli rfl)
    | num iz =>
      exact mof_pass_idem _ _ _ _ _ _ _ (mofl_list_nonarr _ f fp mbn dp mp hli rfl)
    | str st =>
      exact mof_pass_idem _ _ _ _ _ _ _ (mofl_list_nonarr _ f fp mbn dp mp hli rfl)
    | obj es =>
      exact mof_pass_idem _ _ _ _ _ _ _ (mofl_list_nonarr _ f fp mbn dp mp hli rfl)
  · exact mof_pass_idem _ _ _ _ _ _ _ (mofl_scalar_type v f fp mbn dp mp ho hm hr hli)

/-! ### Claim C6: idempotence of annotation -/

/-- C6 (amended): annotation is idempotent — applying `addMetadata` to its
own output with the same model and file path reproduces that output —
provided neither the model nor any model in the schema index declares
(transitively, through nested `fields` and list `items`) a field literally
named `__metadata`.  A model declaring a composite field named
`__metadata` re-processes the attached metadata on the second run and
breaks idempotence (see the counterexample). -/
theorem c6_idempotent_amended (data : Value) (model : Model) (fp : String)
    (mbn : List (String × Model)) (dp mp : List String)
    (h1 : noMetaField model = true) (h2 : ∀ p ∈ mbn, noMetaField p.2 = true) :
    (addMetadata (addMetadata data model fp mbn dp mp).1 model fp mbn dp mp).1 =
      (addMetadata data model fp mbn dp mp).1 :=
  (annotate_idem_aux (sizeOf data)).1 data model fp mbn dp mp le_rfl h1 h2

/-- Witness for C6 (amended): a data model with one string field and a
schema index holding one ordinary model; re-annotating the annotated
object changes nothing. -/
theorem c6_idempotent_amended_witness :
    (addMetadata
      (addMetadata (Value.obj [("a", Value.str "x")])
        (Model.mk (some "m") "data" none none
          [Model.mk (some "a") "string" none none [] none none] none none)
        "f" [("post", Model.mk (some "post") "data" none none [] none none)] [] []).1
      (Model.mk (some "m") "data" none none
        [Model.mk (some "a") "string" none none [] none none] none none)
      "f" [("post", Model.mk (some "post") "data" none none [] none none)] [] []).1 =
      (addMetadata (Value.obj [("a", Value.str "x")])
        (Model.mk (some "m") "data" none none
          [Model.mk (some "a") "string" none none [] none none] none none)
        "f" [("post", Model.mk (some "post") "data" none none [] none none)] [] []).1 :=
  c6_idempotent_amended (Value.obj [("a", Value.str "x")])
    (Model.mk (some "m") "data" none none
      [Model.mk (some "a") "string" none none [] none none] none none)
    "f" [("post", Model.mk (some "post") "data" none none [] none none)] [] []
    (by simp [noMetaField.eq_def, noMetaFields.eq_def, noMetaName,
      Model.fields, Model.items, Model.name])
    (by
      intro p hp
      simp only [List.mem_singleton] at hp
      subst hp
      simp [noMetaField.eq_def, noMetaFields.eq_def, Model.fields, Model.items])

/-- Counterexample to C6 as stated: a model declaring an object-typed field
literally named `__metadata` — the second annotation pass dispatches the
attached `__metadata` mapping through that field and nests fresh metadata
inside it, so re-annotation does not reproduce the first output. -/
theorem c6_counterexample :
    (addMetadata
      (addMetadata (Value.obj [])
        (Model.mk (some "mm") "object" none none
          [Model.mk (some "__metadata") "object" none none [] none none] none none)
        "f" [] [] []).1
      (Model.mk (some "mm") "object" none none
        [Model.mk (some "__metadata") "object" none none [] none none] none none)
      "f" [] [] []).1 ≠
      (addMetadata (Value.obj [])
        (Model.mk (some "mm") "object" none none
          [Model.mk (some "__metadata") "object" none none [] none none] none none)
        "f" [] [] []).1 := by
  have hfirst : (addMetadata (Value.obj [])
      (Model.mk (some "mm") "object" none none
        [Model.mk (some "__metadata") "object" none none [] none none] none none)
      "f" [] [] []).1 =
      Value.obj [("__metadata",
        Value.obj [("modelType", Value.str "object"), ("modelName", Value.str "mm")])] := by
    rw [addMetadata_obj, mapEntries_fst]
    simp [entryMap, computedMeta, jsAssign, assignEntry, lookupEntry, ownEntries,
      Model.fields, Model.name, Model.type, Model.label]
  have h0 : entryMap
      [Model.mk (some "__metadata") "object" none none [] none none]
      "f" [] [] ["mm"] "__metadata"
      (Value.obj [("modelType", Value.str "object"), ("modelName", Value.str "mm")]) =
      (mapObjectField
        (Value.obj [("modelType", Value.str "object"), ("modelName", Value.str "mm")])
        (Model.mk (some "__metadata") "object" none none [] none none)
        "f" [] ([] ++ ["__metadata"]) (["mm"] ++ ["fields", "__metadata"])).1 := rfl
  have hMofl0 : (mapObjectField
      (Value.obj [("modelType", Value.str "object"), ("modelName", Value.str "mm")])
      (Model.mk (some "__metadata") "object" none none [] none none)
      "f" [] ([] ++ ["__metadata"]) (["mm"] ++ ["fields", "__metadata"])).1 =
      Value.obj [("modelType", Value.str "object"), ("modelName", Value.str "mm"),
        ("__metadata", Value.obj [("modelType", Value.str "object"),
          ("modelName", Value.str "__metadata")])] := by
    rw [mofl_object _ (Model.mk (some "__metadata") "object" none none [] none none)
      _ _ _ _ rfl]
    rw [addMetadata_obj, mapEntries_fst]
    simp [entryMap, computedMeta, jsAssign, assignEntry, lookupEntry, ownEntries,
      Model.fields, Model.name, Model.type, Model.label]
  have hE := h0.trans hMofl0
  have hsecond : (addMetadata
      (Value.obj [("__metadata",
        Value.obj [("modelType", Value.str "object"), ("modelName", Value.str "mm")])])
      (Model.mk (some "mm") "object" none none
        [Model.mk (some "__metadata") "object" none none [] none none] none none)
      "f" [] [] []).1 =
      Value.obj [("__metadata",
        Value.obj [("modelType", Value.str "object"), ("modelName", Value.str "mm"),
          ("__metadata", Value.obj [("modelType", Value.str "object"),
            ("modelName", Value.str "__metadata")])])] := by
    rw [addMetadata_obj, mapEntries_fst]
    simp only [Model.fields, Model.name, Model.type, Model.label, List.map_cons,
      List.map_nil, List.isEmpty_nil, if_true, Option.getD_some]
    rw [hE]
    simp [computedMeta, jsAssign, assignEntry, lookupEntry, ownEntries,
      Model.name, Model.type, Model.label]
  rw [hfirst, hsecond]
  simp

end SourceFilesystem
